import Mathlib

/-!
Verification of the PKMN-Autoshine macro execution core.

This file gives a shallow embedding, in Lean 4, of the macro parsing and
execution code of the repository (`src/macros/parser.py`,
`src/macros/execution/{commands,runner_core,session}.py`,
`src/webapp/core/pico_device.py`, `src/webapp/worker/status.py`,
`src/adapter/pico.py`) and proves the testable properties stated in the
specification against it.

Modelling conventions:
* Python strings are modelled as `List Char`; only the ASCII fragment of
  Python's character classes (`\w`, `\s`, `str.isdigit`, `str.upper`) is
  modelled, which covers every construct of the macro language.
* Python floats are modelled as exact rationals (`ℚ`) on the code paths
  whose operations are exact in binary64 (division by a power of two,
  comparison, min/max clamping); the decimal `SLEEP` frame conversion of
  `convert_sleep_to_frames`, where binary64 rounding is observable in the
  output, is modelled by explicit IEEE-754 round-to-nearest-even
  arithmetic (`roundF64`/`sleepFrames`).
* `asyncio` events are modelled as explicit boolean-valued signal functions
  sampled at the program points where the Python code calls `is_set()`.
-/

namespace Autoshine

/-! ## Basic string model (ASCII fragment of the Python primitives) -/

/-- ASCII whitespace, as stripped by Python `str.strip` / split by `str.split`. -/
def pySpace (c : Char) : Bool :=
  c = ' ' || c = '\t' || c = '\n' || c = '\r' || c = '\x0b' || c = '\x0c'

/-- A regex `\w` word character (ASCII fragment): letters, digits, underscore. -/
def wordChar (c : Char) : Bool :=
  c.isAlpha || c.isDigit || c = '_'

/-- Python `str.strip()` (ASCII whitespace). -/
def pyStrip (s : List Char) : List Char :=
  ((s.dropWhile (fun c => pySpace c)).reverse.dropWhile (fun c => pySpace c)).reverse

/-- Helper for Python `str.split()`: accumulate the current word (reversed). -/
def pySplitAux : List Char → List Char → List (List Char)
  | [], acc => if acc.isEmpty then [] else [acc.reverse]
  | c :: tl, acc =>
    if pySpace c then
      if acc.isEmpty then pySplitAux tl [] else acc.reverse :: pySplitAux tl []
    else pySplitAux tl (c :: acc)

/-- Python `str.split()` with no separator: split on runs of whitespace,
dropping empty pieces. -/
def pySplit (s : List Char) : List (List Char) := pySplitAux s []

/-- Python `str.upper()` (ASCII fragment). -/
def pyUpper (s : List Char) : List Char := s.map Char.toUpper

/-- Python `str.isdigit()` (ASCII fragment): nonempty and all digits. -/
def pyIsDigit (s : List Char) : Bool :=
  ¬ s.isEmpty && s.all Char.isDigit

/-- Decimal digit string to `Nat` (the value computed by Python `int` on a
string that passed `isdigit`). -/
def decToNat (s : List Char) : Nat :=
  s.foldl (fun acc c => 10 * acc + (c.toNat - '0'.toNat)) 0

/-- Helper for Python `str.splitlines()`: accumulate the current line (reversed). -/
def pySplitlinesAux : List Char → List Char → List (List Char)
  | [], acc => if acc.isEmpty then [] else [acc.reverse]
  | '\r' :: '\n' :: tl, acc => acc.reverse :: pySplitlinesAux tl []
  | '\r' :: tl, acc => acc.reverse :: pySplitlinesAux tl []
  | '\n' :: tl, acc => acc.reverse :: pySplitlinesAux tl []
  | c :: tl, acc => pySplitlinesAux tl (c :: acc)

/-- Python `str.splitlines()` (ASCII fragment: `\n`, `\r`, `\r\n`). -/
def pySplitlines (s : List Char) : List (List Char) := pySplitlinesAux s []

/-! ## Command structures (`src/macros/parser.py`)

The parser represents commands as tuples: a simple command is
`(name, args)` and a loop is `('LOOP', [str(count)], body)`.  The loop
count is stored here as the `Nat` the parser validated (`int(args[0])`
with `isdigit` and positivity checked); `flatten_commands` reads exactly
that number back. -/

/-- A flattened simple command `(name, args)`. -/
abbrev SimpleCmd := List Char × List (List Char)

/-- A structured command: simple, or a `LOOP`-block with positive count. -/
inductive SCommand where
  | simple (name : List Char) (args : List (List Char))
  | loop (count : Nat) (body : List SCommand)

/-- Parse errors raised (as `ValueError`) by `_parse_commands`.  `outOfFuel`
is an artifact of the fuelled embedding; it is proved unreachable for the
fuel used by the top-level entry points. -/
inductive ParseErr where
  | invalidLine (line : List Char)
  | loopCountMissing (line : List Char)
  | loopCountNonpositive (line : List Char)
  | endloopWithoutLoop
  | missingEndloop
  | outOfFuel
deriving DecidableEq, Repr

/-- The match of `COMMAND_RE = ^(?P<cmd>\w+)\s*(?P<args>.*)$` against a
stripped line, returning the command token and the split argument list
(`args_text.strip().split()`).  The regex fails exactly when the line does
not begin with a word character. -/
def commandMatch (line : List Char) : Option (List Char × List (List Char)) :=
  let cmd := line.takeWhile wordChar
  if cmd.isEmpty then none
  else
    let rest := (line.dropWhile wordChar).dropWhile (fun c => pySpace c)
    some (cmd, pySplit rest)

/-- The per-line analysis performed by the body of `_parse_commands`'s
while loop: strip, skip blanks and comments, match `COMMAND_RE`, uppercase
the command token, and recognize `LOOP` (validating its count) and
`ENDLOOP`. -/
inductive LineView where
  | skip
  | invalid (line : List Char)
  | loopHead (count : Nat) (line : List Char)
  | loopBad (line : List Char)
  | loopZero (line : List Char)
  | endHead
  | cmd (name : List Char) (args : List (List Char))
deriving DecidableEq, Repr

/-- Analyse one raw line exactly as the loop body of `_parse_commands` does. -/
def lineView (l : List Char) : LineView :=
  let line := pyStrip l
  if line.isEmpty || line.head? = some '#' then .skip
  else
    match commandMatch line with
    | none => .invalid line
    | some (cmdRaw, args) =>
      let cmd := pyUpper cmdRaw
      if cmd = ("LOOP".data) then
        match args with
        | [] => .loopBad line
        | a :: _ =>
          if pyIsDigit a then
            if decToNat a = 0 then .loopZero line else .loopHead (decToNat a) line
          else .loopBad line
      else if cmd = ("ENDLOOP".data) then .endHead
      else .cmd cmd args

/-- Shallow embedding of `_parse_commands(lines, start_index, in_loop)`.
The Python index-based while loop with recursive loop-body calls is
rendered as recursion over the remaining line list, with a fuel argument
to make the nested recursion (loop body, then continuation from the
returned index) structural.  Returns the parsed commands together with the
lines after the parsed block. -/
def parseCmdsAux : Nat → List (List Char) → Bool → Except ParseErr (List SCommand × List (List Char))
  | 0, _, _ => .error .outOfFuel
  | _ + 1, [], inLoop =>
      if inLoop then .error .missingEndloop else .ok ([], [])
  | fuel + 1, l :: tl, inLoop =>
      match lineView l with
      | .skip => parseCmdsAux fuel tl inLoop
      | .invalid line => .error (.invalidLine line)
      | .loopBad line => .error (.loopCountMissing line)
      | .loopZero line => .error (.loopCountNonpositive line)
      | .loopHead count _ =>
          match parseCmdsAux fuel tl true with
          | .error e => .error e
          | .ok (body, rest) =>
            match parseCmdsAux fuel rest inLoop with
            | .error e => .error e
            | .ok (cs, rest2) => .ok (.loop count body :: cs, rest2)
      | .endHead =>
          if inLoop then .ok ([], tl) else .error .endloopWithoutLoop
      | .cmd name args =>
          match parseCmdsAux fuel tl inLoop with
          | .error e => .error e
          | .ok (cs, rest) => .ok (.simple name args :: cs, rest)

/-- `parse_macro_structured`, on a pre-split line list. -/
def parseStructuredLines (lines : List (List Char)) : Except ParseErr (List SCommand) :=
  match parseCmdsAux (lines.length + 1) lines false with
  | .error e => .error e
  | .ok (cs, _) => .ok cs

/-- `flatten_commands`: expand every loop into `count` literal repetitions
of its recursively flattened body (`for _ in range(count): result.extend(...)`). -/
def flattenCommands : List SCommand → List SimpleCmd
  | [] => []
  | .simple name args :: tl => (name, args) :: flattenCommands tl
  | .loop count body :: tl =>
      (List.replicate count (flattenCommands body)).flatten ++ flattenCommands tl

/-- `parse_macro`, on a pre-split line list: structured parse then flatten. -/
def parseMacroLines (lines : List (List Char)) : Except ParseErr (List SimpleCmd) :=
  match parseStructuredLines lines with
  | .error e => .error e
  | .ok cs => .ok (flattenCommands cs)

/-- `parse_macro` on raw text (`text.splitlines()` then parse). -/
def parseMacroText (text : List Char) : Except ParseErr (List SimpleCmd) :=
  parseMacroLines (pySplitlines text)

instance {ε α : Type} [DecidableEq ε] [DecidableEq α] : DecidableEq (Except ε α) := fun a b =>
  match a, b with
  | .error e, .error f =>
    if h : e = f then .isTrue (by rw [h]) else .isFalse (by intro hh; cases hh; exact h rfl)
  | .error _, .ok _ => .isFalse (by intro hh; cases hh)
  | .ok _, .error _ => .isFalse (by intro hh; cases hh)
  | .ok x, .ok y =>
    if h : x = y then .isTrue (by rw [h]) else .isFalse (by intro hh; cases hh; exact h rfl)

/-! ## C1: loop expansion -/

/-- `flatten_commands` distributes over list concatenation. -/
theorem flattenCommands_append (a b : List SCommand) :
    flattenCommands (a ++ b) = flattenCommands a ++ flattenCommands b := by
  induction a with
  | nil => simp [flattenCommands]
  | cons c tl ih => cases c <;> simp [flattenCommands, ih]

/-- C1. Loop expansion correctness: `parse_macro` is the flattening of the
structured parse, flattening expands a `LOOP n … ENDLOOP` block into exactly
`n` consecutive copies of its recursively flattened body between the
surrounding commands, and the spec's concrete example
`parse("LOOP 3\nPRESS A\nENDLOOP")` yields exactly three copies of
`('PRESS', ['A'])`. -/
theorem c1_loop_expansion :
    (∀ (pre : List SCommand) (n : Nat) (body post : List SCommand),
      flattenCommands (pre ++ SCommand.loop n body :: post) =
        flattenCommands pre ++ (List.replicate n (flattenCommands body)).flatten ++
          flattenCommands post) ∧
    (∀ lines, parseMacroLines lines = (parseStructuredLines lines).map flattenCommands) ∧
    parseMacroText ("LOOP 3\nPRESS A\nENDLOOP".data) =
      .ok [("PRESS".data, ["A".data]), ("PRESS".data, ["A".data]),
           ("PRESS".data, ["A".data])] := by
  refine ⟨fun pre n body post => ?_, fun lines => ?_, ?_⟩
  · rw [flattenCommands_append]
    simp [flattenCommands]
  · unfold parseMacroLines
    cases parseStructuredLines lines <;> rfl
  · have h : parseStructuredLines (pySplitlines ("LOOP 3\nPRESS A\nENDLOOP".data)) =
        .ok [SCommand.loop 3 [SCommand.simple ("PRESS".data) [("A".data)]]] := rfl
    simp [parseMacroText, parseMacroLines, h, flattenCommands]

/-! ## C2: unbalanced loop structure

To quantify over "every macro text with unbalanced loop structure" we
characterize balance by a depth scan over the per-line analyses, and prove
that the recursive-descent parser errors exactly as the claim states on
every unbalanced input whose individual lines are well formed. -/

/-- A line whose per-line analysis does not raise an error on its own
(blank/comment, well-formed command, well-formed `LOOP`, or `ENDLOOP`). -/
def goodLine (l : List Char) : Bool :=
  match lineView l with
  | .invalid _ => false
  | .loopBad _ => false
  | .loopZero _ => false
  | _ => true

/-- Balance scanner inside a loop body: with `d` further nested loops open,
return the lines after the `ENDLOOP` that closes the enclosing loop, or
`none` if end of input is reached first. -/
def closeSplitD : List (List Char) → Nat → Option (List (List Char))
  | [], _ => none
  | l :: tl, d =>
    match lineView l with
    | .endHead => if d = 0 then some tl else closeSplitD tl (d - 1)
    | .loopHead _ _ => closeSplitD tl (d + 1)
    | _ => closeSplitD tl d

/-- Top-level depth scanner: `none` when some `ENDLOOP` occurs with no loop
open, otherwise the number of loops still open at end of input. -/
def depthCheckL : List (List Char) → Nat → Option Nat
  | [], d => some d
  | l :: tl, d =>
    match lineView l with
    | .endHead => if d = 0 then none else depthCheckL tl (d - 1)
    | .loopHead _ _ => depthCheckL tl (d + 1)
    | _ => depthCheckL tl d

theorem closeSplitD_suffix : ∀ (tl : List (List Char)) (d : Nat) (rest : List (List Char)),
    closeSplitD tl d = some rest → rest <:+ tl := by
  intro tl
  induction tl with
  | nil => intro d rest h; simp [closeSplitD] at h
  | cons l tl ih =>
    intro d rest h
    have hstep : rest <:+ tl → rest <:+ l :: tl := fun hs =>
      hs.trans (List.suffix_cons l tl)
    cases hv : lineView l
    case endHead =>
      simp only [closeSplitD, hv] at h
      by_cases hd : d = 0
      · rw [if_pos hd] at h
        cases h
        exact List.suffix_cons l tl
      · rw [if_neg hd] at h
        exact hstep (ih _ _ h)
    all_goals simp only [closeSplitD, hv] at h
    all_goals exact hstep (ih _ _ h)

/-- If the scan inside a loop body never finds the closing `ENDLOOP`, the
top-level depth scan of the same lines, entered with one loop open, ends
with at least one loop still open. -/
theorem closeSplitD_none_depth : ∀ (tl : List (List Char)) (d : Nat),
    closeSplitD tl d = none → ∃ m, depthCheckL tl (d + 1) = some (m + 1) := by
  intro tl
  induction tl with
  | nil => intro d _; exact ⟨d, rfl⟩
  | cons l tl ih =>
    intro d h
    cases hv : lineView l
    case endHead =>
      simp only [closeSplitD, hv] at h
      simp only [depthCheckL, hv]
      by_cases hd : d = 0
      · rw [if_pos hd] at h; cases h
      · rw [if_neg hd] at h
        obtain ⟨e, he⟩ := Nat.exists_eq_succ_of_ne_zero hd
        subst he
        rw [if_neg (by omega : ¬ e + 1 + 1 = 0)]
        simpa using ih e h
    case loopHead n line =>
      simp only [closeSplitD, hv] at h
      simp only [depthCheckL, hv]
      exact ih (d + 1) h
    all_goals simp only [closeSplitD, hv] at h
    all_goals simp only [depthCheckL, hv]
    all_goals exact ih d h

/-- If the scan inside a loop body finds the closing `ENDLOOP`, the depth
scan continues past it into the remaining lines. -/
theorem closeSplitD_some_depth : ∀ (tl : List (List Char)) (d k : Nat)
    (rest : List (List Char)), closeSplitD tl d = some rest →
    depthCheckL tl (d + 1 + k) = depthCheckL rest k := by
  intro tl
  induction tl with
  | nil => intro d k rest h; simp [closeSplitD] at h
  | cons l tl ih =>
    intro d k rest h
    cases hv : lineView l
    case endHead =>
      simp only [closeSplitD, hv] at h
      simp only [depthCheckL, hv]
      by_cases hd : d = 0
      · rw [if_pos hd] at h
        cases h
        subst hd
        rw [if_neg (by omega : ¬ 0 + 1 + k = 0)]
        congr 1
        omega
      · rw [if_neg hd] at h
        obtain ⟨e, he⟩ := Nat.exists_eq_succ_of_ne_zero hd
        subst he
        rw [if_neg (by omega : ¬ e + 1 + 1 + k = 0)]
        have hx := ih e k rest h
        rw [← hx]
        congr 1
        omega
    case loopHead n line =>
      simp only [closeSplitD, hv] at h
      simp only [depthCheckL, hv]
      have hx := ih (d + 1) k rest h
      rw [← hx]
      congr 1
      omega
    all_goals simp only [closeSplitD, hv] at h
    all_goals simp only [depthCheckL, hv]
    all_goals exact ih d k rest h

/-- Scanning with extra open loops on top of a scan that finds its close:
the extra scan continues in the remainder. -/
theorem closeSplitD_some_shift : ∀ (tl : List (List Char)) (d₁ d₂ : Nat)
    (rest : List (List Char)), closeSplitD tl d₁ = some rest →
    closeSplitD tl (d₁ + d₂ + 1) = closeSplitD rest d₂ := by
  intro tl
  induction tl with
  | nil => intro d₁ d₂ rest h; simp [closeSplitD] at h
  | cons l tl ih =>
    intro d₁ d₂ rest h
    cases hv : lineView l
    case endHead =>
      simp only [closeSplitD, hv] at h
      conv_lhs => rw [closeSplitD]
      simp only [hv]
      by_cases hd : d₁ = 0
      · rw [if_pos hd] at h
        cases h
        subst hd
        rw [if_neg (by omega : ¬ 0 + d₂ + 1 = 0)]
        congr 1
        omega
      · rw [if_neg hd] at h
        obtain ⟨e, he⟩ := Nat.exists_eq_succ_of_ne_zero hd
        subst he
        rw [if_neg (by omega : ¬ e + 1 + d₂ + 1 = 0)]
        have hx := ih e d₂ rest h
        rw [← hx]
        congr 1
        omega
    case loopHead n line =>
      simp only [closeSplitD, hv] at h
      conv_lhs => rw [closeSplitD]
      simp only [hv]
      have hx := ih (d₁ + 1) d₂ rest h
      rw [← hx]
      congr 1
      omega
    all_goals simp only [closeSplitD, hv] at h
    all_goals conv_lhs => rw [closeSplitD]
    all_goals simp only [hv]
    all_goals exact ih d₁ d₂ rest h

/-- Scanning with extra open loops on top of a scan that never closes
still never closes. -/
theorem closeSplitD_none_shift : ∀ (tl : List (List Char)) (d₁ d₂ : Nat),
    closeSplitD tl d₁ = none → closeSplitD tl (d₁ + d₂) = none := by
  intro tl
  induction tl with
  | nil => intro d₁ d₂ _; rfl
  | cons l tl ih =>
    intro d₁ d₂ h
    cases hv : lineView l
    case endHead =>
      simp only [closeSplitD, hv] at h
      conv_lhs => rw [closeSplitD]
      simp only [hv]
      by_cases hd : d₁ = 0
      · rw [if_pos hd] at h; cases h
      · rw [if_neg hd] at h
        obtain ⟨e, he⟩ := Nat.exists_eq_succ_of_ne_zero hd
        subst he
        by_cases hd2 : e + 1 + d₂ = 0
        · omega
        · rw [if_neg hd2]
          have hq : e + 1 + d₂ - 1 = e + d₂ := by omega
          rw [hq]
          exact ih e d₂ h
    case loopHead n line =>
      simp only [closeSplitD, hv] at h
      conv_lhs => rw [closeSplitD]
      simp only [hv]
      have hq : d₁ + d₂ + 1 = d₁ + 1 + d₂ := by omega
      rw [hq]
      exact ih (d₁ + 1) d₂ h
    all_goals simp only [closeSplitD, hv] at h
    all_goals conv_lhs => rw [closeSplitD]
    all_goals simp only [hv]
    all_goals exact ih d₁ d₂ h

/-- Correspondence between the recursive-descent parser and the balance
scanners, for inputs of individually well-formed lines and sufficient
fuel. -/
theorem parseCmdsAux_balance : ∀ (fuel : Nat) (lines : List (List Char)),
    lines.length < fuel → (∀ l ∈ lines, goodLine l = true) →
    ((∀ rest, closeSplitD lines 0 = some rest →
        ∃ cs, parseCmdsAux fuel lines true = .ok (cs, rest)) ∧
     (closeSplitD lines 0 = none →
        parseCmdsAux fuel lines true = .error .missingEndloop) ∧
     (depthCheckL lines 0 = none →
        parseCmdsAux fuel lines false = .error .endloopWithoutLoop) ∧
     (depthCheckL lines 0 = some 0 →
        ∃ cs, parseCmdsAux fuel lines false = .ok (cs, [])) ∧
     (∀ d, depthCheckL lines 0 = some (d + 1) →
        parseCmdsAux fuel lines false = .error .missingEndloop)) := by
  intro fuel
  induction fuel with
  | zero => intro lines hlen _; omega
  | succ f ih =>
    intro lines hlen hgood
    cases lines with
    | nil =>
      refine ⟨?_, ?_, ?_, ?_, ?_⟩ <;> intros <;>
        simp_all [closeSplitD, depthCheckL, parseCmdsAux]
    | cons l tl =>
      have hgl : goodLine l = true := hgood l (List.mem_cons_self l tl)
      have hgtl : ∀ l' ∈ tl, goodLine l' = true :=
        fun l' h => hgood l' (List.mem_cons_of_mem l h)
      have hlen' : tl.length < f := by simp at hlen; omega
      obtain ⟨ih1, ih2, ih3, ih4, ih5⟩ := ih tl hlen' hgtl
      cases hv : lineView l
      case invalid line => rw [goodLine, hv] at hgl; cases hgl
      case loopBad line => rw [goodLine, hv] at hgl; cases hgl
      case loopZero line => rw [goodLine, hv] at hgl; cases hgl
      case skip =>
        refine ⟨?_, ?_, ?_, ?_, ?_⟩ <;>
          simp only [closeSplitD, depthCheckL, parseCmdsAux, hv]
        · exact ih1
        · exact ih2
        · exact ih3
        · exact ih4
        · exact ih5
      case endHead =>
        refine ⟨?_, ?_, ?_, ?_, ?_⟩ <;>
          simp only [closeSplitD, depthCheckL, parseCmdsAux, hv, if_pos rfl]
        · intro rest h
          cases h
          exact ⟨[], rfl⟩
        · intro h; cases h
        · intro _; rfl
        · intro h; cases h
        · intro d h; cases h
      case cmd name args =>
        refine ⟨?_, ?_, ?_, ?_, ?_⟩ <;>
          simp only [closeSplitD, depthCheckL, parseCmdsAux, hv]
        · intro rest h
          obtain ⟨cs, hcs⟩ := ih1 rest h
          exact ⟨.simple name args :: cs, by rw [hcs]⟩
        · intro h; rw [ih2 h]
        · intro h; rw [ih3 h]
        · intro h
          obtain ⟨cs, hcs⟩ := ih4 h
          exact ⟨.simple name args :: cs, by rw [hcs]⟩
        · intro d h; rw [ih5 d h]
      case loopHead n line =>
        have hC : closeSplitD (l :: tl) 0 = closeSplitD tl 1 := by
          simp only [closeSplitD, hv, Nat.zero_add]
        have hD : depthCheckL (l :: tl) 0 = depthCheckL tl 1 := by
          simp only [depthCheckL, hv, Nat.zero_add]
        cases hbody : closeSplitD tl 0 with
        | none =>
          have hinner := ih2 hbody
          have hnone : closeSplitD tl 1 = none := by
            have hx := closeSplitD_none_shift tl 0 1 hbody
            simpa using hx
          have hparseT : parseCmdsAux (f + 1) (l :: tl) true = .error .missingEndloop := by
            simp only [parseCmdsAux, hv, hinner]
          have hparseF : parseCmdsAux (f + 1) (l :: tl) false = .error .missingEndloop := by
            simp only [parseCmdsAux, hv, hinner]
          obtain ⟨m, hm⟩ := closeSplitD_none_depth tl 0 hbody
          have hm1 : depthCheckL tl 1 = some (m + 1) := by simpa using hm
          refine ⟨?_, ?_, ?_, ?_, ?_⟩
          · intro rest h
            rw [hC, hnone] at h
            cases h
          · intro _
            exact hparseT
          · intro h
            rw [hD, hm1] at h
            cases h
          · intro h
            rw [hD, hm1] at h
            cases h
          · intro d _
            exact hparseF
        | some rest1 =>
          obtain ⟨body, hbodyok⟩ := ih1 rest1 hbody
          have hsuf : rest1 <:+ tl := closeSplitD_suffix tl 0 rest1 hbody
          have hlenr : rest1.length < f :=
            lt_of_le_of_lt hsuf.length_le hlen'
          have hgr : ∀ l' ∈ rest1, goodLine l' = true :=
            fun l' h => hgtl l' (hsuf.sublist.subset h)
          obtain ⟨jh1, jh2, jh3, jh4, jh5⟩ := ih rest1 hlenr hgr
          have hclose : closeSplitD (l :: tl) 0 = closeSplitD rest1 0 := by
            rw [hC]
            have hx := closeSplitD_some_shift tl 0 0 rest1 hbody
            simpa using hx
          have hdepth : depthCheckL (l :: tl) 0 = depthCheckL rest1 0 := by
            rw [hD]
            have hx := closeSplitD_some_depth tl 0 0 rest1 hbody
            simpa using hx
          refine ⟨?_, ?_, ?_, ?_, ?_⟩
          · intro rest h
            rw [hclose] at h
            obtain ⟨cs, hcs⟩ := jh1 rest h
            exact ⟨.loop n body :: cs, by simp only [parseCmdsAux, hv, hbodyok, hcs]⟩
          · intro h
            rw [hclose] at h
            simp only [parseCmdsAux, hv, hbodyok, jh2 h]
          · intro h
            rw [hdepth] at h
            simp only [parseCmdsAux, hv, hbodyok, jh3 h]
          · intro h
            rw [hdepth] at h
            obtain ⟨cs, hcs⟩ := jh4 h
            exact ⟨.loop n body :: cs, by simp only [parseCmdsAux, hv, hbodyok, hcs]⟩
          · intro d h
            rw [hdepth] at h
            simp only [parseCmdsAux, hv, hbodyok, jh5 d h]

/-- A successful parse implies the loop structure was balanced: inside a
loop the parser stops exactly at the lines the balance scanner designates,
and at top level it consumes everything with depth zero. -/
theorem parseCmdsAux_ok_balanced : ∀ (fuel : Nat) (lines : List (List Char))
    (cs : List SCommand) (rest : List (List Char)),
    (parseCmdsAux fuel lines true = .ok (cs, rest) →
      closeSplitD lines 0 = some rest) ∧
    (parseCmdsAux fuel lines false = .ok (cs, rest) →
      depthCheckL lines 0 = some 0) := by
  intro fuel
  induction fuel with
  | zero =>
    intro lines cs rest
    constructor <;> intro h <;> simp [parseCmdsAux] at h
  | succ f ih =>
    intro lines cs rest
    cases lines with
    | nil =>
      constructor <;> intro h <;> simp [parseCmdsAux] at h
      simp [depthCheckL]
    | cons l tl =>
      cases hv : lineView l
      case skip =>
        constructor <;> intro h <;>
          simp only [parseCmdsAux, hv] at h <;>
          simp only [closeSplitD, depthCheckL, hv]
        · exact (ih tl cs rest).1 h
        · exact (ih tl cs rest).2 h
      case invalid line =>
        constructor <;> intro h <;> simp only [parseCmdsAux, hv] at h <;> cases h
      case loopBad line =>
        constructor <;> intro h <;> simp only [parseCmdsAux, hv] at h <;> cases h
      case loopZero line =>
        constructor <;> intro h <;> simp only [parseCmdsAux, hv] at h <;> cases h
      case endHead =>
        constructor <;> intro h <;> simp only [parseCmdsAux, hv] at h
        · cases h
          simp [closeSplitD, hv]
        · cases h
      case cmd name args =>
        constructor <;> intro h <;> simp only [parseCmdsAux, hv] at h
        · cases hrec : parseCmdsAux f tl true with
          | error e => rw [hrec] at h; cases h
          | ok pr =>
            obtain ⟨cs2, rest2⟩ := pr
            rw [hrec] at h
            cases h
            simp only [closeSplitD, hv]
            exact (ih tl cs2 rest).1 hrec
        · cases hrec : parseCmdsAux f tl false with
          | error e => rw [hrec] at h; cases h
          | ok pr =>
            obtain ⟨cs2, rest2⟩ := pr
            rw [hrec] at h
            cases h
            simp only [depthCheckL, hv]
            exact (ih tl cs2 rest).2 hrec
      case loopHead n line =>
        have hgen : ∀ (b : Bool), parseCmdsAux (f + 1) (l :: tl) b = .ok (cs, rest) →
            ∃ body rest1 cs2, parseCmdsAux f tl true = .ok (body, rest1) ∧
              parseCmdsAux f rest1 b = .ok (cs2, rest) := by
          intro b h
          simp only [parseCmdsAux, hv] at h
          cases hrec : parseCmdsAux f tl true with
          | error e => rw [hrec] at h; cases h
          | ok pr =>
            obtain ⟨body, rest1⟩ := pr
            simp only [hrec] at h
            cases hrec2 : parseCmdsAux f rest1 b with
            | error e => rw [hrec2] at h; cases h
            | ok pr2 =>
              obtain ⟨cs2, rest2⟩ := pr2
              rw [hrec2] at h
              cases h
              exact ⟨body, rest1, cs2, rfl, hrec2⟩
        constructor <;> intro h
        · obtain ⟨body, rest1, cs2, hb, hc⟩ := hgen true h
          have h1 : closeSplitD tl 0 = some rest1 := (ih tl body rest1).1 hb
          have h2 : closeSplitD rest1 0 = some rest := (ih rest1 cs2 rest).1 hc
          have hx := closeSplitD_some_shift tl 0 0 rest1 h1
          simp only [closeSplitD, hv, Nat.zero_add]
          rw [show (1 : Nat) = 0 + 0 + 1 by omega, hx]
          exact h2
        · obtain ⟨body, rest1, cs2, hb, hc⟩ := hgen false h
          have h1 : closeSplitD tl 0 = some rest1 := (ih tl body rest1).1 hb
          have h2 : depthCheckL rest1 0 = some 0 := (ih rest1 cs2 rest).2 hc
          have hx := closeSplitD_some_depth tl 0 0 rest1 h1
          simp only [depthCheckL, hv, Nat.zero_add]
          rw [show (1 : Nat) = 0 + 1 + 0 by omega, hx]
          exact h2

/-- C2.  Unbalanced loop structure, at any nesting depth, always fails:
for lines that are individually well formed, an `ENDLOOP` with no
enclosing `LOOP` (depth scan dips below zero) raises the
`ENDLOOP found without matching LOOP` error and reaching end of input with
a loop still open raises the `LOOP command is missing matching ENDLOOP`
error; and — for arbitrary input — whenever the loop structure is
unbalanced no command list is ever returned. -/
theorem c2_unbalanced_raises :
    (∀ lines, (∀ l ∈ lines, goodLine l = true) → depthCheckL lines 0 = none →
      parseMacroLines lines = .error .endloopWithoutLoop) ∧
    (∀ lines d, (∀ l ∈ lines, goodLine l = true) →
      depthCheckL lines 0 = some (d + 1) →
      parseMacroLines lines = .error .missingEndloop) ∧
    (∀ lines cs, depthCheckL lines 0 ≠ some 0 →
      parseMacroLines lines ≠ .ok cs) := by
  refine ⟨?_, ?_, ?_⟩
  · intro lines hgood h
    obtain ⟨-, -, h3, -, -⟩ :=
      parseCmdsAux_balance (lines.length + 1) lines (Nat.lt_succ_self _) hgood
    rw [parseMacroLines, parseStructuredLines, h3 h]
  · intro lines d hgood h
    obtain ⟨-, -, -, -, h5⟩ :=
      parseCmdsAux_balance (lines.length + 1) lines (Nat.lt_succ_self _) hgood
    rw [parseMacroLines, parseStructuredLines, h5 d h]
  · intro lines cs hne hok
    rw [parseMacroLines] at hok
    cases hs : parseStructuredLines lines with
    | error e => rw [hs] at hok; cases hok
    | ok cs2 =>
      rw [parseStructuredLines] at hs
      cases hp : parseCmdsAux (lines.length + 1) lines false with
      | error e => rw [hp] at hs; cases hs
      | ok pr =>
        obtain ⟨cs3, rest3⟩ := pr
        exact hne ((parseCmdsAux_ok_balanced (lines.length + 1) lines cs3 rest3).2 hp)

/-- Witness for C2 at concrete unbalanced inputs: a doubly-nested open
loop with no `ENDLOOP`, a bare `ENDLOOP`, and the no-command-list
consequence at the first input. -/
theorem c2_unbalanced_raises_witness :
    parseMacroLines [("LOOP 2".data), ("LOOP 3".data), ("PRESS A".data),
        ("ENDLOOP".data)] = .error .missingEndloop ∧
    parseMacroLines [("PRESS A".data), ("ENDLOOP".data)] =
      .error .endloopWithoutLoop ∧
    parseMacroLines [("PRESS A".data), ("ENDLOOP".data)] ≠ .ok [] := by
  refine ⟨?_, ?_, ?_⟩
  · exact c2_unbalanced_raises.2.1
      [("LOOP 2".data), ("LOOP 3".data), ("PRESS A".data), ("ENDLOOP".data)]
      0 (by decide) (by decide)
  · exact c2_unbalanced_raises.1 [("PRESS A".data), ("ENDLOOP".data)]
      (by decide) (by decide)
  · exact c2_unbalanced_raises.2.2 [("PRESS A".data), ("ENDLOOP".data)]
      [] (by decide)

/-! ## C3: device-target handling

The specification claims `"all:PRESS A"`, `"*:PRESS A"` and `"PRESS A"` all
parse to the same no-target command.  The parser (`COMMAND_RE` and
`_parse_commands`) has no device-target syntax at all: a leading
`all:` is consumed as the command name `ALL` (the colon falls into the
argument text), and `*` is not a word character, so `"*:PRESS A"` fails the
regex and parsing raises `Invalid macro line format`. -/

/-- C3 counterexample: `"all:PRESS A"` and `"PRESS A"` do not parse to the
same command, and `"*:PRESS A"` does not parse at all. -/
theorem c3_counterexample :
    parseMacroText ("all:PRESS A".data) ≠ parseMacroText ("PRESS A".data) ∧
    parseMacroText ("*:PRESS A".data) = .error (.invalidLine ("*:PRESS A".data)) := by
  have h1 : parseStructuredLines (pySplitlines ("all:PRESS A".data)) =
      .ok [SCommand.simple ("ALL".data) [(":PRESS".data), ("A".data)]] := rfl
  have h2 : parseStructuredLines (pySplitlines ("PRESS A".data)) =
      .ok [SCommand.simple ("PRESS".data) [("A".data)]] := rfl
  refine ⟨?_, rfl⟩
  simp [parseMacroText, parseMacroLines, h1, h2, flattenCommands]

/-- C3 amended: there is no device-target recognition in the parser.
`"PRESS A"` parses to the command `PRESS` with argument `A`;
`"all:PRESS A"` parses to a command named `ALL` whose first argument is
`":PRESS"` (no normalization of `all` occurs); and `"*:PRESS A"` is
rejected as an invalid line because `*` is not a word character. -/
theorem c3_no_device_target_normalization :
    parseMacroText ("PRESS A".data) = .ok [("PRESS".data, ["A".data])] ∧
    parseMacroText ("all:PRESS A".data) =
      .ok [("ALL".data, [(":PRESS".data), ("A".data)])] ∧
    parseMacroText ("*:PRESS A".data) = .error (.invalidLine ("*:PRESS A".data)) := by
  have h1 : parseStructuredLines (pySplitlines ("all:PRESS A".data)) =
      .ok [SCommand.simple ("ALL".data) [(":PRESS".data), ("A".data)]] := rfl
  have h2 : parseStructuredLines (pySplitlines ("PRESS A".data)) =
      .ok [SCommand.simple ("PRESS".data) [("A".data)]] := rfl
  refine ⟨?_, ?_, rfl⟩ <;> simp [parseMacroText, parseMacroLines, h1, h2, flattenCommands]

/-! ## C7: Pico firmware macro preprocessing (`src/webapp/core/pico_device.py`)

`PicoDevice.send_macro` preprocesses the macro text with
`flatten_press_commands` and then `convert_sleep_to_frames` before
uploading it line by line to the firmware. -/

/-- Python `text.split('\n')` (keeps empty pieces). -/
def splitNlAux : List Char → List Char → List (List Char)
  | [], acc => [acc.reverse]
  | '\n' :: tl, acc => acc.reverse :: splitNlAux tl []
  | c :: tl, acc => splitNlAux tl (c :: acc)

/-- Python `text.split('\n')`. -/
def splitNl (s : List Char) : List (List Char) := splitNlAux s []

/-- Python `'\n'.join(lines)`. -/
def joinNl : List (List Char) → List Char
  | [] => []
  | [l] => l
  | l :: tl => l ++ '\n' :: joinNl tl

/-- The match of `re.match(r'PRESS\s+(\w+)', stripped, re.IGNORECASE)`:
the literal `PRESS` case-insensitively, at least one whitespace character,
then the captured maximal word-character run. -/
def pressMatch (s : List Char) : Option (List Char) :=
  if pyUpper (s.take 5) = ("PRESS".data) then
    let rest := s.drop 5
    if (rest.takeWhile (fun c => pySpace c)).isEmpty then none
    else
      let btn := (rest.dropWhile (fun c => pySpace c)).takeWhile wordChar
      if btn.isEmpty then none else some btn
  else none

/-- One line of `flatten_press_commands`: a matched `PRESS` line becomes
`HOLD <button>` and `RELEASE <button>` (no `SLEEP` inserted); any other
line is kept as-is. -/
def flattenPressLine (line : List Char) : List (List Char) :=
  match pressMatch (pyStrip line) with
  | some btn => [("HOLD ".data) ++ btn, ("RELEASE ".data) ++ btn]
  | none => [line]

/-- `flatten_press_commands`. -/
def flattenPressCommands (text : List Char) : List Char :=
  joinNl ((splitNl text).flatMap flattenPressLine)

/-- The match of `re.match(r'(SLEEP)\s+([\d.]+)', stripped, re.IGNORECASE)`:
returns (group 1: the literal as written, group 2: the maximal digits-and-
dots run after the whitespace). -/
def sleepMatch (s : List Char) : Option (List Char × List Char) :=
  if pyUpper (s.take 5) = ("SLEEP".data) then
    let rest := s.drop 5
    if (rest.takeWhile (fun c => pySpace c)).isEmpty then none
    else
      let v := (rest.dropWhile (fun c => pySpace c)).takeWhile
        (fun c => c.isDigit || c = '.')
      if v.isEmpty then none else some (s.take 5, v)
  else none

/-- The shapes accepted by Python `float` among the strings the `[\d.]+`
capture can produce: digits with at most one dot and at least one digit.
Returns the numerator and the power-of-ten denominator exponent, so the
value is `n / 10 ^ k`; `none` when `float` would raise `ValueError`. -/
def decimalParts (s : List Char) : Option (Nat × Nat) :=
  let intPart := s.takeWhile Char.isDigit
  match s.dropWhile Char.isDigit with
  | [] => if intPart.isEmpty then none else some (decToNat intPart, 0)
  | '.' :: frac =>
      if frac.all Char.isDigit && ¬ (intPart.isEmpty && frac.isEmpty) then
        some (decToNat intPart * 10 ^ frac.length + decToNat frac, frac.length)
      else none
  | _ => none

/-- Python `float` on such a literal, as an exact rational. -/
def decimalToRat (s : List Char) : Option ℚ :=
  (decimalParts s).map (fun p => (p.1 : ℚ) / 10 ^ p.2)

/-- Python `str` of a nonnegative integer. -/
def natToDec (n : Nat) : List Char := Nat.toDigits 10 n

/-! IEEE-754 binary64 model for the `SLEEP` frame conversion.

CPython evaluates `int(float(value_str) * 125)` with a correctly-rounded
decimal-to-double conversion, one correctly-rounded binary64
multiplication, and truncation toward zero.  Binary64 rounding is
observable in the emitted frame count: `float('8.04')` is
8.03999999999999914…, whose product with 125 rounds to
1004.9999999999998863, so the code emits `SLEEP 1004` where exact
arithmetic would give 1005.  The model below implements round-to-nearest,
ties-to-even, on nonnegative rationals: a value is a mantissa–exponent
pair `m · 2 ^ e` (zero and subnormals included), and `none` marks
overflow to infinity, on which `int` raises `OverflowError`. -/

/-- A nonnegative finite binary64 value `m · 2 ^ e`. -/
structure F64 where
  m : Nat
  e : Int
deriving DecidableEq, Repr

/-- Fuelled floor of `log2` (`2 ^ result ≤ n < 2 ^ (result + 1)` for
`n ≥ 1`), structural so that the kernel can evaluate it. -/
def log2Aux : Nat → Nat → Nat
  | 0, _ => 0
  | fuel + 1, n => if n < 2 then 0 else log2Aux fuel (n / 2) + 1

/-- Floor of `log2 n` for `n ≥ 1`. -/
def floorLog2 (n : Nat) : Nat := log2Aux n n

/-- Is `n / d < 2 ^ p` (for `d > 0`)? -/
def ltPow2 (n d : Nat) (p : Int) : Bool :=
  if 0 ≤ p then n < d * 2 ^ p.toNat else n * 2 ^ (-p).toNat < d

/-- Is `2 ^ 1024 ≤ m · 2 ^ e` — the binary64 overflow threshold? -/
def overflowF64 (m : Nat) (e : Int) : Bool :=
  if 0 ≤ e then 2 ^ 1024 ≤ m * 2 ^ e.toNat
  else 2 ^ 1024 * 2 ^ (-e).toNat ≤ m

/-- Round `n / d` (with `d > 0`) to the nearest binary64 value, ties to
even.  `E` is the binade exponent (`2 ^ (E - 1) ≤ n / d < 2 ^ E`); the
mantissa is rounded at `e = max (E - 53) (-1074)` (normal, or subnormal
at the fixed minimum exponent); `none` is overflow to infinity. -/
def roundF64 (n d : Nat) : Option F64 :=
  if n = 0 then some ⟨0, 0⟩
  else
    let a : Int := floorLog2 n
    let b : Int := floorLog2 d
    let E : Int := if ltPow2 n d (a - b) then a - b else a - b + 1
    let e : Int := max (E - 53) (-1074)
    let num := if 0 ≤ e then n else n * 2 ^ (-e).toNat
    let den := if 0 ≤ e then d * 2 ^ e.toNat else d
    let q := num / den
    let r := num % den
    let m := if den < 2 * r ∨ (2 * r = den ∧ q % 2 = 1) then q + 1 else q
    if overflowF64 m e then none else some ⟨m, e⟩

/-- The exact value of a finite binary64 number as a numerator and a
positive denominator. -/
def F64.toNumDen (x : F64) : Nat × Nat :=
  if 0 ≤ x.e then (x.m * 2 ^ x.e.toNat, 1) else (x.m, 2 ^ (-x.e).toNat)

/-- Python `int` of a nonnegative binary64 value (truncation). -/
def F64.trunc (x : F64) : Nat :=
  if 0 ≤ x.e then x.m * 2 ^ x.e.toNat else x.m / 2 ^ (-x.e).toNat

/-- `int(float(s) * 125)` for the decimal literal of value `n / 10 ^ k`,
exactly as CPython computes it: correctly-rounded string-to-double
conversion, one correctly-rounded binary64 multiplication by the exact
constant 125, truncation toward zero; `none` when a rounding overflows to
infinity and `int` raises. -/
def sleepFrames (n k : Nat) : Option Nat :=
  match roundF64 n (10 ^ k) with
  | none => none
  | some x =>
    let p := F64.toNumDen x
    match roundF64 (p.1 * 125) p.2 with
    | none => none
    | some y => some (F64.trunc y)

/-- One line of `convert_sleep_to_frames`: a matched `SLEEP` line whose
value contains a decimal point becomes `f'{command} {int(value * 125)}'`
with `float(value) * 125` computed in binary64 (seconds × 125 frames,
truncated); an integer-valued `SLEEP` line and any non-matching line are
kept as-is.  `none` models the `ValueError` that `float` raises on a
malformed value such as `1.2.3` (and the `OverflowError` of `int` on an
infinite product). -/
def convertSleepLine (line : List Char) : Option (List Char) :=
  match sleepMatch (pyStrip line) with
  | none => some line
  | some (cmdTok, v) =>
    if '.' ∈ v then
      match decimalParts v with
      | none => none
      | some (n, k) =>
        match sleepFrames n k with
        | none => none
        | some f => some (cmdTok ++ ' ' :: natToDec f)
    else some line

/-- `convert_sleep_to_frames`. -/
def convertSleepToFrames (text : List Char) : Option (List Char) :=
  ((splitNl text).mapM convertSleepLine).map joinNl

/-- The preprocessing pipeline applied by `PicoDevice.send_macro` before
uploading: flatten `PRESS`, then convert decimal `SLEEP` values to frames. -/
def picoPreprocess (text : List Char) : Option (List Char) :=
  convertSleepToFrames (flattenPressCommands text)

/-! Helper lemmas about characters and whitespace stripping. -/

theorem word_not_space (c : Char) (h : wordChar c = true) : pySpace c = false := by
  by_contra hs
  have hs' : pySpace c = true := by
    cases hps : pySpace c
    · exact absurd hps hs
    · rfl
  simp only [pySpace, Bool.or_eq_true, decide_eq_true_eq] at hs'
  rcases hs' with ((((h1 | h1) | h1) | h1) | h1) | h1 <;> subst h1 <;> revert h <;> decide

theorem digit_word (c : Char) (h : c.isDigit = true) : wordChar c = true := by
  simp [wordChar, h]

theorem dropWhile_all_false (p : Char → Bool) :
    ∀ l : List Char, (∀ c ∈ l, p c = false) → List.dropWhile p l = l := by
  intro l h
  cases l with
  | nil => rfl
  | cons c tl =>
    rw [List.dropWhile_cons_of_neg]
    simp [h c (List.mem_cons_self c tl)]

theorem takeWhile_all_true (p : Char → Bool) :
    ∀ l : List Char, (∀ c ∈ l, p c = true) → List.takeWhile p l = l := by
  intro l h
  induction l with
  | nil => rfl
  | cons c tl ih =>
    rw [List.takeWhile_cons_of_pos (h c (List.mem_cons_self c tl))]
    rw [ih (fun c hc => h c (List.mem_cons_of_mem _ hc))]

/-- Stripping a line that starts with a non-space character and ends with a
non-space character changes nothing. -/
theorem pyStrip_of_ends (c : Char) (mid : List Char) (hc : pySpace c = false)
    (hlast : ∀ d, (c :: mid).getLast? = some d → pySpace d = false) :
    pyStrip (c :: mid) = c :: mid := by
  unfold pyStrip
  rw [List.dropWhile_cons_of_neg (by simp [hc])]
  cases hrev : (c :: mid).reverse with
  | nil => simp at hrev
  | cons d rtl =>
    have hd : (c :: mid).getLast? = some d := by
      rw [List.getLast?_eq_head?_reverse, hrev]
      rfl
    rw [List.dropWhile_cons_of_neg (by simp [hlast d hd])]
    rw [← hrev, List.reverse_reverse]

theorem digitdot_not_space (c : Char) (h : (c.isDigit || c = '.') = true) :
    pySpace c = false := by
  simp only [Bool.or_eq_true, decide_eq_true_eq] at h
  rcases h with h | h
  · exact word_not_space c (digit_word c h)
  · subst h; decide

/-- Stripping a nonempty line of the form `<prefix> <arg>` whose first
character is not whitespace and whose argument has no whitespace changes
nothing. -/
theorem pyStrip_prefix_arg (c : Char) (rest b : List Char)
    (hc : pySpace c = false) (hb : b ≠ [])
    (hbl : ∀ d ∈ b, pySpace d = false) :
    pyStrip ((c :: rest) ++ b) = (c :: rest) ++ b := by
  rw [List.cons_append]
  apply pyStrip_of_ends c (rest ++ b) hc
  intro d hd
  rw [← List.cons_append, List.getLast?_append_of_ne_nil _ hb] at hd
  have hlast := List.getLast?_eq_getLast_of_ne_nil hb
  rw [hlast] at hd
  cases hd
  exact hbl _ (List.getLast_mem hb)

theorem pressMatch_shape (b : List Char) (hb : b ≠ []) (hw : ∀ c ∈ b, wordChar c = true) :
    pressMatch (("PRESS ".data) ++ b) = some b := by
  have hns : ∀ d ∈ b, pySpace d = false := fun d hd => word_not_space d (hw d hd)
  simp only [pressMatch]
  have h1 : pyUpper ((("PRESS ".data) ++ b).take 5) = ("PRESS".data) := rfl
  rw [h1, if_pos rfl]
  have h2 : (("PRESS ".data) ++ b).drop 5 = ' ' :: b := rfl
  rw [h2]
  have hsp : pySpace ' ' = true := rfl
  simp [hsp, dropWhile_all_false _ b hns, takeWhile_all_true wordChar b hw, hb]

theorem sleepMatch_shape (v : List Char) (hv : v ≠ [])
    (hd : ∀ c ∈ v, (c.isDigit || c = '.') = true) :
    sleepMatch (("SLEEP ".data) ++ v) = some (("SLEEP".data), v) := by
  have hns : ∀ d ∈ v, pySpace d = false := fun d hdm => digitdot_not_space d (hd d hdm)
  simp only [sleepMatch]
  have h1 : pyUpper ((("SLEEP ".data) ++ v).take 5) = ("SLEEP".data) := rfl
  rw [h1, if_pos rfl]
  have h2 : (("SLEEP ".data) ++ v).drop 5 = ' ' :: v := rfl
  have h3 : (("SLEEP ".data) ++ v).take 5 = ("SLEEP".data) := rfl
  rw [h2, h3]
  have hsp : pySpace ' ' = true := rfl
  simp [hsp, dropWhile_all_false _ v hns,
    takeWhile_all_true (fun c => c.isDigit || c = '.') v hd, hv]

set_option maxRecDepth 16384 in
/-- C7.  At the Pico firmware boundary, preprocessing rewrites every
`PRESS <button>` line into `HOLD <button>` followed by `RELEASE <button>`
with no `SLEEP` inserted; rewrites every `SLEEP <value>` line whose value
contains a decimal point into `SLEEP <int(value * 125)>`, with
`float(value) * 125` evaluated in binary64 exactly as the code does
(seconds converted to frames at 125 Hz, truncated); leaves every
integer-valued `SLEEP` line unchanged; passes all lines matching neither
pattern through unmodified; and the whole `send_macro` pipeline on a
concrete macro produces exactly the expected text.  The concrete clauses
pin the binary64 rounding: `SLEEP 8.04` emits 1004 frames (not the 1005
of exact arithmetic), `SLEEP 64.6` emits 8074, `SLEEP 8.008` emits 1000,
matching CPython. -/
theorem c7_pico_preprocessing :
    (∀ b : List Char, b ≠ [] → (∀ c ∈ b, wordChar c = true) →
      flattenPressLine (("PRESS ".data) ++ b) =
        [("HOLD ".data) ++ b, ("RELEASE ".data) ++ b]) ∧
    (∀ line, pressMatch (pyStrip line) = none → flattenPressLine line = [line]) ∧
    (∀ (v : List Char) (n k f : Nat), v ≠ [] →
      (∀ c ∈ v, (c.isDigit || c = '.') = true) → '.' ∈ v →
      decimalParts v = some (n, k) → sleepFrames n k = some f →
      convertSleepLine (("SLEEP ".data) ++ v) =
        some (("SLEEP ".data) ++ natToDec f)) ∧
    (∀ v : List Char, v ≠ [] → (∀ c ∈ v, c.isDigit = true) →
      convertSleepLine (("SLEEP ".data) ++ v) = some (("SLEEP ".data) ++ v)) ∧
    (∀ line, sleepMatch (pyStrip line) = none → convertSleepLine line = some line) ∧
    picoPreprocess ("PRESS A\nSLEEP 0.5\nSLEEP 10\nHOLD B".data) =
      some ("HOLD A\nRELEASE A\nSLEEP 62\nSLEEP 10\nHOLD B".data) ∧
    convertSleepLine (("SLEEP ".data) ++ ("8.04".data)) =
      some (("SLEEP ".data) ++ ("1004".data)) ∧
    convertSleepLine (("SLEEP ".data) ++ ("64.6".data)) =
      some (("SLEEP ".data) ++ ("8074".data)) ∧
    convertSleepLine (("SLEEP ".data) ++ ("8.008".data)) =
      some (("SLEEP ".data) ++ ("1000".data)) := by
  refine ⟨?_, ?_, ?_, ?_, ?_, ?_, ?_, ?_, ?_⟩
  · intro b hb hw
    have hns : ∀ d ∈ b, pySpace d = false := fun d hdm => word_not_space d (hw d hdm)
    rw [flattenPressLine,
      pyStrip_prefix_arg 'P' ("RESS ".data) b rfl hb hns,
      pressMatch_shape b hb hw]
  · intro line h
    rw [flattenPressLine, h]
  · intro v n k f hv hd hdot hparts hframes
    have hns : ∀ d ∈ v, pySpace d = false := fun d hdm => digitdot_not_space d (hd d hdm)
    rw [convertSleepLine,
      pyStrip_prefix_arg 'S' ("LEEP ".data) v rfl hv hns,
      sleepMatch_shape v hv hd]
    simp only [hdot, if_pos, hparts, hframes]
    rfl
  · intro v hv hd
    have hd' : ∀ c ∈ v, (c.isDigit || c = '.') = true := by
      intro c hc
      simp [hd c hc]
    have hns : ∀ d ∈ v, pySpace d = false := fun d hdm => digitdot_not_space d (hd' d hdm)
    have hdot : ¬ '.' ∈ v := by
      intro hmem
      have hcon := hd '.' hmem
      simp [Char.isDigit] at hcon
    rw [convertSleepLine,
      pyStrip_prefix_arg 'S' ("LEEP ".data) v rfl hv hns,
      sleepMatch_shape v hv hd']
    simp [hdot]
  · intro line h
    rw [convertSleepLine, h]
  · decide
  · decide
  · decide
  · decide

set_option maxRecDepth 16384 in
/-- Witness for C7 at concrete inputs: `PRESS A`, `SLEEP 8.04` (1004
frames under binary64), `SLEEP 10` (unchanged), and the non-matching line
`HOLD B`. -/
theorem c7_pico_preprocessing_witness :
    flattenPressLine (("PRESS ".data) ++ ("A".data)) =
      [("HOLD ".data) ++ ("A".data), ("RELEASE ".data) ++ ("A".data)] ∧
    convertSleepLine (("SLEEP ".data) ++ ("8.04".data)) =
      some (("SLEEP ".data) ++ ("1004".data)) ∧
    convertSleepLine (("SLEEP ".data) ++ ("10".data)) =
      some (("SLEEP ".data) ++ ("10".data)) ∧
    convertSleepLine ("HOLD B".data) = some ("HOLD B".data) := by
  refine ⟨?_, ?_, ?_, ?_⟩
  · exact c7_pico_preprocessing.1 ("A".data) (by decide) (by decide)
  · have hx := c7_pico_preprocessing.2.2.1 ("8.04".data) 804 2 1004
      (by decide) (by decide) (by decide) (by decide) (by decide)
    have h1004 : natToDec 1004 = ("1004".data) := by decide
    rw [h1004] at hx
    exact hx
  · exact c7_pico_preprocessing.2.2.2.1 ("10".data) (by decide) (by decide)
  · exact c7_pico_preprocessing.2.2.2.2.1 ("HOLD B".data) (by decide)

/-! ## C8: session-accumulated runtime (`src/webapp/worker/status.py`)

`MacroStatus` tracks runtime as a sum over start/pause-resume brackets.
`time.time()` is modelled by passing the current time explicitly to each
method; only the three runtime-tracking fields are modelled (the metric
and alert fields do not interact with them). -/

structure MacroStatus where
  total_runtime : ℚ
  session_start : Option ℚ
  is_running : Bool

/-- `MacroStatus.__init__`: no accumulated runtime, no session, not running. -/
def MacroStatus.init : MacroStatus :=
  { total_runtime := 0, session_start := none, is_running := false }

/-- `start_session`: begin timing; ignored if already running. -/
def MacroStatus.startSession (now : ℚ) (s : MacroStatus) : MacroStatus :=
  if s.is_running then s
  else { s with session_start := some now, is_running := true }

/-- `pause_session`: add the elapsed bracket to the total and stop timing. -/
def MacroStatus.pauseSession (now : ℚ) (s : MacroStatus) : MacroStatus :=
  match s.is_running, s.session_start with
  | true, some t =>
    { total_runtime := s.total_runtime + (now - t), session_start := none,
      is_running := false }
  | _, _ => s

/-- `stop_session`: identical accumulation to `pause_session`. -/
def MacroStatus.stopSession (now : ℚ) (s : MacroStatus) : MacroStatus :=
  match s.is_running, s.session_start with
  | true, some t =>
    { total_runtime := s.total_runtime + (now - t), session_start := none,
      is_running := false }
  | _, _ => s

/-- `get_current_runtime`: the total plus the in-progress bracket. -/
def MacroStatus.getCurrentRuntime (now : ℚ) (s : MacroStatus) : ℚ :=
  s.total_runtime +
    match s.is_running, s.session_start with
    | true, some t => now - t
    | _, _ => 0

/-- C8.  Tracked total runtime accumulates only across running brackets:
start, pause after `T` seconds, resume after a further gap, stop after
`T2` more seconds gives total `T + T2` (not wall-clock since first start);
`start_session` while running is ignored; `pause_session` and
`stop_session` each add exactly the current bracket; and
`get_current_runtime` adds the in-progress bracket only while running. -/
theorem c8_runtime_accumulation :
    (∀ t0 T gap T2 : ℚ, 0 ≤ T → 0 ≤ T2 → 0 ≤ gap →
      (MacroStatus.stopSession (t0 + T + gap + T2)
        (MacroStatus.startSession (t0 + T + gap)
          (MacroStatus.pauseSession (t0 + T)
            (MacroStatus.startSession t0 MacroStatus.init)))).total_runtime =
        T + T2) ∧
    (∀ (now : ℚ) (s : MacroStatus), s.is_running = true →
      MacroStatus.startSession now s = s) ∧
    (∀ (now t : ℚ) (s : MacroStatus), s.is_running = true →
      s.session_start = some t →
      (MacroStatus.pauseSession now s).total_runtime =
        s.total_runtime + (now - t) ∧
      (MacroStatus.pauseSession now s).is_running = false) ∧
    (∀ (now t : ℚ) (s : MacroStatus), s.is_running = true →
      s.session_start = some t →
      (MacroStatus.stopSession now s).total_runtime =
        s.total_runtime + (now - t)) ∧
    (∀ (now t : ℚ) (s : MacroStatus), s.is_running = true →
      s.session_start = some t →
      MacroStatus.getCurrentRuntime now s = s.total_runtime + (now - t)) ∧
    (∀ (now : ℚ) (s : MacroStatus), s.is_running = false →
      MacroStatus.getCurrentRuntime now s = s.total_runtime) := by
  refine ⟨?_, ?_, ?_, ?_, ?_, ?_⟩
  · intro t0 T gap T2 _ _ _
    simp only [MacroStatus.init, MacroStatus.startSession, MacroStatus.pauseSession,
      MacroStatus.stopSession]
    norm_num
  · intro now s h
    simp [MacroStatus.startSession, h]
  · intro now t s h ht
    rw [MacroStatus.pauseSession, h, ht]
    exact ⟨rfl, rfl⟩
  · intro now t s h ht
    rw [MacroStatus.stopSession, h, ht]
  · intro now t s h ht
    rw [MacroStatus.getCurrentRuntime, h, ht]
  · intro now s h
    rw [MacroStatus.getCurrentRuntime, h]
    cases s.session_start <;> simp

/-- Witness for C8 at concrete times: start at 10, pause at 13, resume at
15, stop at 19 gives total runtime `3 + 4`; plus concrete instances of the
remaining clauses. -/
theorem c8_runtime_accumulation_witness :
    (MacroStatus.stopSession ((10 : ℚ) + 3 + 2 + 4)
      (MacroStatus.startSession (10 + 3 + 2)
        (MacroStatus.pauseSession (10 + 3)
          (MacroStatus.startSession 10 MacroStatus.init)))).total_runtime =
      3 + 4 ∧
    MacroStatus.startSession 5 (⟨1, some 2, true⟩ : MacroStatus) =
      (⟨1, some 2, true⟩ : MacroStatus) ∧
    MacroStatus.getCurrentRuntime 7 (⟨1, some 2, true⟩ : MacroStatus) = 1 + (7 - 2) := by
  refine ⟨?_, ?_, ?_⟩
  · exact c8_runtime_accumulation.1 10 3 2 4 (by norm_num) (by norm_num) (by norm_num)
  · exact c8_runtime_accumulation.2.1 5 _ rfl
  · exact c8_runtime_accumulation.2.2.2.2.1 7 2 _ rfl rfl
/-! ## C9: STICK axis values (`execution/commands.py` `_parse_axis_value`
and `adapter/pico.py` `PicoAdapter.stick`)

`_parse_axis_value` parses an axis argument as a float when it contains a
decimal point, otherwise as `int(value, 0)` (decimal, or `0x`/`0o`/`0b`
prefixed), falling back to `float` when that fails.  `PicoAdapter.stick`
converts integer (raw 12-bit) values to normalized floats via
`(raw - 0x800) / 0x800` and clamps both axes to `[-1.0, 1.0]` before
sending `STICK <stick> <h> <v>`.  Underscore digit separators and float
exponents, accepted by Python on exotic inputs, are outside the model. -/

/-- A parsed axis value: Python `int` or `float`. -/
inductive AxisVal where
  | intV (n : ℤ)
  | floatV (q : ℚ)
deriving DecidableEq, Repr

/-- Python `float(s)` for optionally signed decimal literals (exact). -/
def pyFloat (s : List Char) : Option ℚ :=
  match s with
  | '-' :: rest => (decimalToRat rest).map (fun q => -q)
  | '+' :: rest => decimalToRat rest
  | _ => decimalToRat s

/-- Value of one digit in bases up to 16. -/
def digitVal (c : Char) : Option Nat :=
  if c.isDigit then some (c.toNat - ('0').toNat)
  else if 'a' ≤ c && c ≤ 'f' then some (c.toNat - ('a').toNat + 10)
  else if 'A' ≤ c && c ≤ 'F' then some (c.toNat - ('A').toNat + 10)
  else none

/-- Digit string in the given base (none on empty or invalid digits). -/
def baseToNat (b : Nat) (s : List Char) : Option Nat :=
  if s.isEmpty then none
  else
    s.foldl (fun acc c =>
      match acc, digitVal c with
      | some a, some v => if v < b then some (b * a + v) else none
      | _, _ => none) (some 0)

/-- Python `int(s, 0)` on an unsigned literal: `0x`/`0o`/`0b` prefixes, or
a decimal literal with no leading zero (except a string of zeros). -/
def pyUIntBase0 : List Char → Option Nat
  | '0' :: 'x' :: rest => baseToNat 16 rest
  | '0' :: 'X' :: rest => baseToNat 16 rest
  | '0' :: 'o' :: rest => baseToNat 8 rest
  | '0' :: 'O' :: rest => baseToNat 8 rest
  | '0' :: 'b' :: rest => baseToNat 2 rest
  | '0' :: 'B' :: rest => baseToNat 2 rest
  | s =>
    if ¬ s.isEmpty && s.all Char.isDigit &&
        (s.head? = some '0' → s.all (fun c => c = '0')) then
      some (decToNat s)
    else none

/-- Python `int(s, 0)` with an optional sign. -/
def pyIntBase0 (s : List Char) : Option ℤ :=
  match s with
  | '-' :: rest => (pyUIntBase0 rest).map (fun n => -(n : ℤ))
  | '+' :: rest => (pyUIntBase0 rest).map (fun n => (n : ℤ))
  | _ => (pyUIntBase0 s).map (fun n => (n : ℤ))

/-- `_parse_axis_value`: strings with a decimal point parse as floats;
otherwise try `int(value, 0)`; otherwise fall back to `float`.  `none`
models the `ValueError` the executor wraps as invalid stick coordinates. -/
def parseAxisValue (s : List Char) : Option AxisVal :=
  if '.' ∈ s then (pyFloat s).map .floatV
  else
    match pyIntBase0 s with
    | some n => some (.intV n)
    | none => (pyFloat s).map .floatV

/-- The numeric value transmitted by `PicoAdapter.stick` for one axis:
integers are converted by `(raw - 0x800) / 0x800` to a normalized float,
then every value is clamped to `[-1.0, 1.0]`. -/
def picoStickAxis : AxisVal → ℚ
  | .intV n => max (-1) (min 1 (((n : ℚ) - 2048) / 2048))
  | .floatV q => max (-1) (min 1 q)

/-- C9 counterexample: the raw integer axis value 2304 (`0x900`) is not
passed through unmodified by `PicoAdapter.stick` — it is transmitted as
the normalized float `1/8` — even though 2304 is inside the adapter's
valid 12-bit coordinate domain. -/
theorem c9_counterexample :
    picoStickAxis (AxisVal.intV 2304) = 1 / 8 ∧ ((1 : ℚ) / 8) ≠ 2304 := by
  constructor
  · rw [picoStickAxis]
    rw [show ((2304 : ℤ) : ℚ) = 2304 from rfl]
    norm_num
  · norm_num

/-- C9 amended.  Floats are clamped to `[-1, 1]` before transmission
(values inside the range pass unchanged); integer raw values are not
passed through but converted to normalized floats by
`(raw - 0x800)/0x800` and then clamped — a conversion that is injective
(information-preserving) on the valid 12-bit domain `0..0xFFF`; axis
strings with a decimal point parse as floats, and other axis strings
parse as integers in decimal or `0x`-prefixed hex notation. -/
theorem c9_stick_axis_handling :
    (∀ q : ℚ, -1 ≤ q → q ≤ 1 → picoStickAxis (.floatV q) = q) ∧
    (∀ q : ℚ, 1 < q → picoStickAxis (.floatV q) = 1) ∧
    (∀ q : ℚ, q < -1 → picoStickAxis (.floatV q) = -1) ∧
    (∀ n : ℤ, 0 ≤ n → n ≤ 4095 →
      picoStickAxis (.intV n) = ((n : ℚ) - 2048) / 2048) ∧
    (∀ n m : ℤ, 0 ≤ n → n ≤ 4095 → 0 ≤ m → m ≤ 4095 →
      picoStickAxis (.intV n) = picoStickAxis (.intV m) → n = m) ∧
    (∀ s q, '.' ∈ s → pyFloat s = some q →
      parseAxisValue s = some (.floatV q)) ∧
    (∀ s n, ¬ '.' ∈ s → pyIntBase0 s = some n →
      parseAxisValue s = some (.intV n)) ∧
    parseAxisValue ("0x800".data) = some (.intV 2048) ∧
    parseAxisValue ("2048".data) = some (.intV 2048) := by
  have hdom : ∀ n : ℤ, 0 ≤ n → n ≤ 4095 →
      picoStickAxis (.intV n) = ((n : ℚ) - 2048) / 2048 := by
    intro n h0 h1
    rw [picoStickAxis]
    have hc0 : ((n : ℚ) - 2048) / 2048 ≤ 1 := by
      rw [div_le_one (by norm_num : (0:ℚ) < 2048)]
      have : (n : ℚ) ≤ 4095 := by exact_mod_cast h1
      linarith
    have hc1 : (-1 : ℚ) ≤ ((n : ℚ) - 2048) / 2048 := by
      rw [le_div_iff₀ (by norm_num : (0:ℚ) < 2048)]
      have : (0 : ℚ) ≤ (n : ℚ) := by exact_mod_cast h0
      linarith
    rw [min_eq_right hc0, max_eq_right hc1]
  refine ⟨?_, ?_, ?_, hdom, ?_, ?_, ?_, ?_, ?_⟩
  · intro q hq1 hq2
    rw [picoStickAxis, min_eq_right hq2, max_eq_right hq1]
  · intro q hq
    rw [picoStickAxis, min_eq_left (le_of_lt hq), max_eq_right (by norm_num : (-1:ℚ) ≤ 1)]
  · intro q hq
    rw [picoStickAxis, min_eq_right (by linarith : q ≤ 1), max_eq_left (le_of_lt hq)]
  · intro n m hn0 hn1 hm0 hm1 heq
    rw [hdom n hn0 hn1, hdom m hm0 hm1, div_eq_div_iff (by norm_num) (by norm_num)] at heq
    have : (n : ℚ) = (m : ℚ) := by linarith
    exact_mod_cast this
  · intro s q hdot hq
    rw [parseAxisValue, if_pos hdot, hq]
    rfl
  · intro s n hdot hn
    rw [parseAxisValue, if_neg hdot, hn]
  · rfl
  · rfl

/-- Witness for C9 amended at concrete inputs: the in-range float `1/2`
passes unchanged, `3/2` clamps to `1`, `-3/2` clamps to `-1`; raw 2304
maps to `(2304 - 2048)/2048`; injectivity at `2304 = 2304`; and
`"0.5"`/`"-0x10"` parse as float/int. -/
theorem c9_stick_axis_handling_witness :
    picoStickAxis (.floatV (1 / 2)) = 1 / 2 ∧
    picoStickAxis (.floatV (3 / 2)) = 1 ∧
    picoStickAxis (.floatV (-3 / 2)) = -1 ∧
    picoStickAxis (.intV 2304) = (((2304 : ℤ) : ℚ) - 2048) / 2048 ∧
    parseAxisValue ("0.5".data) = some (.floatV ((5 : ℚ) / 10 ^ 1)) ∧
    parseAxisValue ("-0x10".data) = some (.intV (-16)) := by
  refine ⟨?_, ?_, ?_, ?_, ?_, ?_⟩
  · exact c9_stick_axis_handling.1 (1 / 2) (by norm_num) (by norm_num)
  · exact c9_stick_axis_handling.2.1 (3 / 2) (by norm_num)
  · exact c9_stick_axis_handling.2.2.1 (-3 / 2) (by norm_num)
  · exact c9_stick_axis_handling.2.2.2.1 2304 (by norm_num) (by norm_num)
  · apply c9_stick_axis_handling.2.2.2.2.2.1 ("0.5".data) ((5 : ℚ) / 10 ^ 1) (by decide)
    have hp : decimalParts ("0.5".data) = some (5, 1) := by decide
    have hstep : pyFloat ("0.5".data) = decimalToRat ("0.5".data) := rfl
    rw [hstep, decimalToRat, hp]
    rfl
  · apply c9_stick_axis_handling.2.2.2.2.2.2.1 ("-0x10".data) (-16) (by decide)
    have hp : pyUIntBase0 ("0x10".data) = some 16 := by decide
    have hstep : pyIntBase0 ("-0x10".data) =
        (pyUIntBase0 ("0x10".data)).map (fun n => -(n : ℤ)) := rfl
    rw [hstep, hp]
    rfl
/-! ## Command executor and sequence runner
(`execution/commands.py`, `execution/runner_core.py`)

`run_commands` dispatches to `_run_commands_optimized` when the adapter
has `send_batch_commands`, else to `_run_commands_sequential`.  Adapter
calls are reified as effect traces; the stop event is modelled as a
predicate on the command index sampled where `is_set()` is called; the
pause event is modelled as set (waits return immediately), matching the
scenarios the claims quantify over. -/

/-- The `Button` enum of `adapter/base.py`. -/
inductive Button where
  | A | B | X | Y | L | R | ZL | ZR | PLUS | MINUS | HOME | CAPTURE
  | DPAD_UP | DPAD_DOWN | DPAD_LEFT | DPAD_RIGHT | L_STICK | R_STICK
deriving DecidableEq, Repr

/-- Enum-name lookup table for `Button[...]`. -/
def buttonNames : List (List Char × Button) :=
  [(("A".data), .A), (("B".data), .B), (("X".data), .X), (("Y".data), .Y),
   (("L".data), .L), (("R".data), .R), (("ZL".data), .ZL), (("ZR".data), .ZR),
   (("PLUS".data), .PLUS), (("MINUS".data), .MINUS), (("HOME".data), .HOME),
   (("CAPTURE".data), .CAPTURE), (("DPAD_UP".data), .DPAD_UP),
   (("DPAD_DOWN".data), .DPAD_DOWN), (("DPAD_LEFT".data), .DPAD_LEFT),
   (("DPAD_RIGHT".data), .DPAD_RIGHT), (("L_STICK".data), .L_STICK),
   (("R_STICK".data), .R_STICK)]

/-- `_parse_button` on the already-uppercased name: `Button[name]`, with
the `Button(name.lower())` fallback, which (since every enum value is the
lowercase of its name) succeeds exactly when the name lookup does. -/
def parseButton (s : List Char) : Option Button :=
  (buttonNames.find? (fun p => decide (p.1 = s))).map (fun p => p.2)

/-- The `Stick` enum of `adapter/base.py`. -/
inductive StickId where
  | L_STICK | R_STICK
deriving DecidableEq, Repr

/-- `_parse_stick` on the uppercased name. -/
def parseStick (s : List Char) : Option StickId :=
  if s = ("L".data) ∨ s = ("L_STICK".data) ∨ s = ("LEFT".data) then some .L_STICK
  else if s = ("R".data) ∨ s = ("R_STICK".data) ∨ s = ("RIGHT".data) then some .R_STICK
  else none

/-- One adapter-level effect issued by the sequential executor. -/
inductive Eff where
  | press (b : Button)
  | hold (b : Button)
  | release (b : Button)
  | stick (s : StickId) (h v : AxisVal)
  | sleep (d : ℚ)
deriving DecidableEq, Repr

/-- The `ValueError`s raised by the executor and the batch converter. -/
inductive ExecErr where
  | emptyArgs (cmd : List Char)
  | unknownButton (s : List Char)
  | unknownStick (s : List Char)
  | badAxis
  | badDuration (s : List Char)
  | negativeDuration
  | unknownCommand (name : List Char)
  | notBatchable (name : List Char)
deriving DecidableEq, Repr

/-- `execute_press_command` (and, with the other constructors,
`execute_hold_command` / `execute_release_command`): validate the button
name, then call the corresponding adapter operation. -/
def execButton (cmd : List Char) (mk : Button → Eff) (args : List (List Char)) :
    Except ExecErr Eff :=
  match args with
  | [] => .error (.emptyArgs cmd)
  | a :: _ =>
    match parseButton (pyUpper a) with
    | some b => .ok (mk b)
    | none => .error (.unknownButton (pyUpper a))

/-- The duration validation of `execute_sleep_command`: `float(args[0])`,
rejecting negatives. -/
def parseSleepDuration (args : List (List Char)) : Except ExecErr ℚ :=
  match args with
  | [] => .error (.emptyArgs ("SLEEP".data))
  | a :: _ =>
    match pyFloat a with
    | none => .error (.badDuration a)
    | some d => if d < 0 then .error .negativeDuration else .ok d

/-- `execute_stick_command`: validate the stick name and both axis values,
then issue one `stick` call setting both axes. -/
def execStickCmd (args : List (List Char)) : Except ExecErr Eff :=
  match args with
  | s :: h :: v :: _ =>
    match parseStick (pyUpper s) with
    | none => .error (.unknownStick (pyUpper s))
    | some st =>
      match parseAxisValue h, parseAxisValue v with
      | some hv, some vv => .ok (.stick st hv vv)
      | _, _ => .error .badAxis
  | _ => .error (.emptyArgs ("STICK".data))

/-- `_execute_single_command`: dispatch on the command name; unknown names
raise `Unknown macro command`. -/
def execCommand : SimpleCmd → Except ExecErr Eff
  | (name, args) =>
    if name = ("PRESS".data) then execButton ("PRESS".data) Eff.press args
    else if name = ("HOLD".data) then execButton ("HOLD".data) Eff.hold args
    else if name = ("RELEASE".data) then execButton ("RELEASE".data) Eff.release args
    else if name = ("SLEEP".data) then (parseSleepDuration args).map Eff.sleep
    else if name = ("STICK".data) then execStickCmd args
    else .error (.unknownCommand name)

/-- How a run ends: all commands done, a stop signal honoured, or an
exception propagated to the caller. -/
inductive Outcome where
  | completed
  | stopped
  | failed (e : ExecErr)
deriving DecidableEq, Repr

/-- `_run_commands_sequential`: per command, check the stop event, wait on
the pause event, execute; an error aborts the remainder. -/
def seqRunAux (stop : Nat → Bool) : Nat → List SimpleCmd → List Eff × Outcome
  | _, [] => ([], .completed)
  | i, c :: tl =>
    if stop i then ([], .stopped)
    else
      match execCommand c with
      | .error e => ([], .failed e)
      | .ok eff =>
        let r := seqRunAux stop (i + 1) tl
        (eff :: r.1, r.2)

/-- `_run_commands_sequential` from the first command. -/
def seqRun (stop : Nat → Bool) (cmds : List SimpleCmd) : List Eff × Outcome :=
  seqRunAux stop 0 cmds

/-- One adapter-level effect issued by the optimized (batched) runner. -/
inductive BEff where
  | sendBatch (cmds : List (List Char))
  | sleep (d : ℚ)
deriving DecidableEq, Repr

/-- Python `' '.join(args)`. -/
def joinSpace : List (List Char) → List Char
  | [] => []
  | [a] => a
  | a :: tl => a ++ ' ' :: joinSpace tl

/-- `_convert_to_batch_command`: `f"{cmd} {' '.join(args)}"` for the four
batchable macro commands, the two meta-commands verbatim, and an error
otherwise.  No button, stick or axis validation happens here. -/
def batchString : SimpleCmd → Except ExecErr (List Char)
  | (name, args) =>
    if name = ("PRESS".data) ∨ name = ("HOLD".data) ∨ name = ("RELEASE".data) ∨
        name = ("STICK".data) then
      .ok (name ++ ' ' :: joinSpace args)
    else if name = ("CENTER_STICKS".data) then .ok ("CENTER_STICKS".data)
    else if name = ("RELEASE_ALL".data) then .ok ("RELEASE_ALL".data)
    else .error (.notBatchable name)

/-- `if batch: await adapter.send_batch_commands(batch)`. -/
def flushBatch (batch : List (List Char)) : List BEff :=
  if batch.isEmpty then [] else [.sendBatch batch]

/-- `_run_commands_optimized`: accumulate non-`SLEEP` commands into a
batch; flush the pending batch immediately before executing a `SLEEP`
individually and once at end of sequence; a stop mid-way returns without
flushing the pending batch. -/
def optRunAux (stop : Nat → Bool) : Nat → List (List Char) → List SimpleCmd →
    List BEff × Outcome
  | _, batch, [] => (flushBatch batch, .completed)
  | i, batch, c :: tl =>
    if stop i then ([], .stopped)
    else if c.1 = ("SLEEP".data) then
      match parseSleepDuration c.2 with
      | .error e => (flushBatch batch, .failed e)
      | .ok d =>
        let r := optRunAux stop (i + 1) [] tl
        (flushBatch batch ++ .sleep d :: r.1, r.2)
    else
      match batchString c with
      | .error e => ([], .failed e)
      | .ok s => optRunAux stop (i + 1) (batch ++ [s]) tl

/-- `_run_commands_optimized` from the first command with an empty batch. -/
def optRun (stop : Nat → Bool) (cmds : List SimpleCmd) : List BEff × Outcome :=
  optRunAux stop 0 [] cmds

/-- C4 counterexample: on the one-command sequence `CENTER_STICKS`, with no
stop requested, the batched path completes successfully (sending one bulk
call) while the sequential path raises `Unknown macro command` — the two
paths are distinguishable in their success/error outcome. -/
theorem c4_counterexample :
    optRun (fun _ => false) [(("CENTER_STICKS".data), [])] =
      ([BEff.sendBatch [("CENTER_STICKS".data)]], .completed) ∧
    seqRun (fun _ => false) [(("CENTER_STICKS".data), [])] =
      ([], .failed (.unknownCommand ("CENTER_STICKS".data))) ∧
    (optRun (fun _ => false) [(("CENTER_STICKS".data), [])]).2 ≠
      (seqRun (fun _ => false) [(("CENTER_STICKS".data), [])]).2 := by
  refine ⟨rfl, rfl, ?_⟩
  intro h
  cases h
/-- A command the sequential executor accepts: one of the five macro
commands with valid arguments. -/
def validCmd (c : SimpleCmd) : Bool :=
  match execCommand c with
  | .ok _ => true
  | .error _ => false

/-- Modelled from the spec: the optimization path's intended trace —
"batches consecutive non-SLEEP commands into one bulk call, flushing the
batch immediately before any SLEEP and at end-of-sequence".  Used as the
reference for what the batched runner emits on valid command sequences. -/
def specBatchedAux : List (List Char) → List SimpleCmd → List BEff
  | batch, [] => flushBatch batch
  | batch, c :: tl =>
    if c.1 = ("SLEEP".data) then
      flushBatch batch ++
        (match parseSleepDuration c.2 with
         | .ok d => [BEff.sleep d]
         | .error _ => []) ++ specBatchedAux [] tl
    else
      match batchString c with
      | .ok s => specBatchedAux (batch ++ [s]) tl
      | .error _ => specBatchedAux batch tl

/-- Modelled from the spec: the intended batched trace of a sequence. -/
def specBatched (cmds : List SimpleCmd) : List BEff := specBatchedAux [] cmds

/-- The per-command wire token: the SLEEP duration for a `SLEEP` command,
else the batch command string. -/
def cmdToken (c : SimpleCmd) : Option (Sum (List Char) ℚ) :=
  if c.1 = ("SLEEP".data) then (parseSleepDuration c.2).toOption.map .inr
  else (batchString c).toOption.map .inl

/-- Flatten a batched trace to its wire tokens in issue order. -/
def flattenBEffs : List BEff → List (Sum (List Char) ℚ)
  | [] => []
  | .sendBatch b :: tl => b.map .inl ++ flattenBEffs tl
  | .sleep d :: tl => .inr d :: flattenBEffs tl

theorem flattenBEffs_flush_append (b : List (List Char)) (rest : List BEff) :
    flattenBEffs (flushBatch b ++ rest) = b.map .inl ++ flattenBEffs rest := by
  cases b with
  | nil => simp [flushBatch, flattenBEffs]
  | cons x tl => simp [flushBatch, flattenBEffs]

/-- A valid non-`SLEEP` command always has a batch rendering. -/
theorem validCmd_batchString (c : SimpleCmd) (hv : validCmd c = true)
    (hns : c.1 ≠ ("SLEEP".data)) : ∃ s, batchString c = .ok s := by
  obtain ⟨name, args⟩ := c
  simp only at hns
  rw [validCmd] at hv
  rw [execCommand] at hv
  rw [batchString]
  by_cases h1 : name = ("PRESS".data)
  · rw [if_pos (Or.inl h1)]; exact ⟨_, rfl⟩
  by_cases h2 : name = ("HOLD".data)
  · rw [if_pos (Or.inr (Or.inl h2))]; exact ⟨_, rfl⟩
  by_cases h3 : name = ("RELEASE".data)
  · rw [if_pos (Or.inr (Or.inr (Or.inl h3)))]; exact ⟨_, rfl⟩
  by_cases h5 : name = ("STICK".data)
  · rw [if_pos (Or.inr (Or.inr (Or.inr h5)))]; exact ⟨_, rfl⟩
  exfalso
  rw [if_neg h1, if_neg h2, if_neg h3, if_neg hns, if_neg h5] at hv
  cases hv

/-- A valid `SLEEP` command always has a valid duration. -/
theorem validCmd_sleep (c : SimpleCmd) (hv : validCmd c = true)
    (hs : c.1 = ("SLEEP".data)) : ∃ d, parseSleepDuration c.2 = .ok d := by
  obtain ⟨name, args⟩ := c
  simp only at hs
  subst hs
  rw [validCmd, execCommand] at hv
  rw [if_neg (by decide), if_neg (by decide), if_neg (by decide), if_pos rfl] at hv
  cases hd : parseSleepDuration args with
  | ok d => exact ⟨d, rfl⟩
  | error e => rw [hd] at hv; cases hv

/-- On all-valid sequences with no stop request the sequential runner
completes, issuing each command's single effect in command order. -/
theorem seqRunAux_valid (cmds : List SimpleCmd) :
    ∀ i, (∀ c ∈ cmds, validCmd c = true) →
    seqRunAux (fun _ => false) i cmds =
      (cmds.filterMap (fun c => (execCommand c).toOption), .completed) := by
  induction cmds with
  | nil => intro i _; rfl
  | cons c tl ih =>
    intro i hv
    have hc : validCmd c = true := hv c (List.mem_cons_self c tl)
    rw [seqRunAux]
    rw [if_neg (by simp)]
    cases he : execCommand c with
    | error e => rw [validCmd, he] at hc; cases hc
    | ok eff =>
      rw [ih (i + 1) (fun d hd => hv d (List.mem_cons_of_mem c hd))]
      simp [List.filterMap_cons, he, Except.toOption]

/-- On all-valid sequences with no stop request the batched runner
completes and emits exactly the spec's batched trace. -/
theorem optRunAux_valid (cmds : List SimpleCmd) :
    ∀ i batch, (∀ c ∈ cmds, validCmd c = true) →
    optRunAux (fun _ => false) i batch cmds = (specBatchedAux batch cmds, .completed) := by
  induction cmds with
  | nil => intro i batch _; rfl
  | cons c tl ih =>
    intro i batch hv
    have hc : validCmd c = true := hv c (List.mem_cons_self c tl)
    have hvtl : ∀ d ∈ tl, validCmd d = true :=
      fun d hd => hv d (List.mem_cons_of_mem c hd)
    rw [optRunAux, specBatchedAux]
    rw [if_neg (by simp)]
    by_cases hs : c.1 = ("SLEEP".data)
    · rw [if_pos hs, if_pos hs]
      obtain ⟨d, hd⟩ := validCmd_sleep c hc hs
      rw [hd, ih (i + 1) [] hvtl]
      simp
    · rw [if_neg hs, if_neg hs]
      obtain ⟨s, hsok⟩ := validCmd_batchString c hc hs
      simp only [hsok]
      exact ih (i + 1) (batch ++ [s]) hvtl

/-- The spec's batched trace flattens to the per-command wire tokens in
original command order, with the pending batch prepended. -/
theorem flattenBEffs_specBatchedAux (cmds : List SimpleCmd) :
    ∀ batch, (∀ c ∈ cmds, validCmd c = true) →
    flattenBEffs (specBatchedAux batch cmds) =
      batch.map .inl ++ cmds.filterMap cmdToken := by
  induction cmds with
  | nil =>
    intro batch _
    have h := flattenBEffs_flush_append batch []
    simp only [List.append_nil] at h
    simp [specBatchedAux, h, flattenBEffs]
  | cons c tl ih =>
    intro batch hv
    have hc : validCmd c = true := hv c (List.mem_cons_self c tl)
    have hvtl : ∀ d ∈ tl, validCmd d = true :=
      fun d hd => hv d (List.mem_cons_of_mem c hd)
    rw [specBatchedAux]
    by_cases hs : c.1 = ("SLEEP".data)
    · rw [if_pos hs]
      obtain ⟨d, hd⟩ := validCmd_sleep c hc hs
      rw [hd]
      rw [show flushBatch batch ++ [BEff.sleep d] ++ specBatchedAux [] tl =
        flushBatch batch ++ ([BEff.sleep d] ++ specBatchedAux [] tl) by simp]
      rw [flattenBEffs_flush_append]
      rw [show ([BEff.sleep d] ++ specBatchedAux [] tl) =
        BEff.sleep d :: specBatchedAux [] tl from rfl]
      rw [flattenBEffs, ih [] hvtl]
      rw [List.filterMap_cons]
      rw [show cmdToken c = some (.inr d) by rw [cmdToken, if_pos hs, hd]; rfl]
      simp
    · rw [if_neg hs]
      obtain ⟨s, hsok⟩ := validCmd_batchString c hc hs
      rw [hsok, ih (batch ++ [s]) hvtl]
      rw [List.filterMap_cons]
      rw [show cmdToken c = some (.inl s) by rw [cmdToken, if_neg hs, hsok]; rfl]
      simp

/-- Every bulk call the batched path issues is nonempty. -/
theorem specBatchedAux_nonempty (cmds : List SimpleCmd) :
    ∀ (batch : List (List Char)) (b : List (List Char)),
    BEff.sendBatch b ∈ specBatchedAux batch cmds → b ≠ [] := by
  induction cmds with
  | nil =>
    intro batch b hmem
    cases batch with
    | nil => simp [specBatchedAux, flushBatch] at hmem
    | cons x tl =>
      simp [specBatchedAux, flushBatch] at hmem
      subst hmem
      simp
  | cons c tl ih =>
    intro batch b hmem
    rw [specBatchedAux] at hmem
    by_cases hs : c.1 = ("SLEEP".data)
    · rw [if_pos hs] at hmem
      simp only [List.mem_append] at hmem
      rcases hmem with (hmem | hmem) | hmem
      · cases batch with
        | nil => simp [flushBatch] at hmem
        | cons x xtl =>
          simp [flushBatch] at hmem
          subst hmem
          simp
      · cases hpd : parseSleepDuration c.2 <;> rw [hpd] at hmem <;> simp at hmem
      · exact ih [] b hmem
    · rw [if_neg hs] at hmem
      cases hbs : batchString c <;> rw [hbs] at hmem
      · exact ih batch b hmem
      · exact ih _ b hmem

/-- C4 amended.  The batched path taken when the adapter supports bulk
submission is not externally indistinguishable from the sequential path
(see the counterexample: it skips command validation and accepts the
`CENTER_STICKS`/`RELEASE_ALL` meta-commands the sequential path rejects).
What does hold, for sequences of valid macro commands with no stop
request: both paths complete; the sequential path issues each command's
single adapter effect in command order; the batched path emits exactly
the spec's batched trace — consecutive non-`SLEEP` commands in one
nonempty bulk call, flushed immediately before each `SLEEP` and at end of
sequence — whose flattening preserves the per-command order. -/
theorem c4_batching_flush_order :
    (∀ cmds, (∀ c ∈ cmds, validCmd c = true) →
      seqRun (fun _ => false) cmds =
        (cmds.filterMap (fun c => (execCommand c).toOption), .completed)) ∧
    (∀ cmds, (∀ c ∈ cmds, validCmd c = true) →
      optRun (fun _ => false) cmds = (specBatched cmds, .completed)) ∧
    (∀ cmds, (∀ c ∈ cmds, validCmd c = true) →
      flattenBEffs (specBatched cmds) = cmds.filterMap cmdToken) ∧
    (∀ cmds b, BEff.sendBatch b ∈ specBatched cmds → b ≠ []) := by
  refine ⟨?_, ?_, ?_, ?_⟩
  · intro cmds hv
    exact seqRunAux_valid cmds 0 hv
  · intro cmds hv
    exact optRunAux_valid cmds 0 [] hv
  · intro cmds hv
    have h := flattenBEffs_specBatchedAux cmds [] hv
    simpa [specBatched] using h
  · intro cmds b hmem
    exact specBatchedAux_nonempty cmds [] b hmem
/-- Witness for C4 amended on the concrete valid sequence
`PRESS A; STICK L 0x800 0x800; SLEEP 10; HOLD B`. -/
theorem c4_batching_flush_order_witness :
    seqRun (fun _ => false)
      [(("PRESS".data), [("A".data)]),
       (("STICK".data), [("L".data), ("0x800".data), ("0x800".data)]),
       (("SLEEP".data), [("10".data)]),
       (("HOLD".data), [("B".data)])] =
      ([Eff.press Button.A,
        Eff.stick StickId.L_STICK (.intV 2048) (.intV 2048),
        Eff.sleep ((10 : ℚ) / 10 ^ 0),
        Eff.hold Button.B], .completed) ∧
    optRun (fun _ => false)
      [(("PRESS".data), [("A".data)]),
       (("STICK".data), [("L".data), ("0x800".data), ("0x800".data)]),
       (("SLEEP".data), [("10".data)]),
       (("HOLD".data), [("B".data)])] =
      ([BEff.sendBatch [("PRESS A".data), ("STICK L 0x800 0x800".data)],
        BEff.sleep ((10 : ℚ) / 10 ^ 0),
        BEff.sendBatch [("HOLD B".data)]], .completed) := by
  have hp : decimalParts ("10".data) = some (10, 0) := by decide
  have hf : pyFloat ("10".data) = some ((10 : ℚ) / 10 ^ 0) := by
    have hstep : pyFloat ("10".data) = decimalToRat ("10".data) := rfl
    rw [hstep, decimalToRat, hp]
    rfl
  have hsd : parseSleepDuration [("10".data)] = .ok ((10 : ℚ) / 10 ^ 0) := by
    rw [parseSleepDuration]
    simp only [hf]
    rw [if_neg (by norm_num)]
  have hvsleep : validCmd (("SLEEP".data), [("10".data)]) = true := by
    rw [validCmd, execCommand]
    rw [if_neg (by decide), if_neg (by decide), if_neg (by decide), if_pos rfl]
    rw [hsd]
    rfl
  have hval : ∀ c ∈ [(("PRESS".data), [("A".data)]),
      (("STICK".data), [("L".data), ("0x800".data), ("0x800".data)]),
      (("SLEEP".data), [("10".data)]),
      (("HOLD".data), [("B".data)])], validCmd c = true := by
    intro c hc
    simp only [List.mem_cons, List.not_mem_nil, or_false] at hc
    rcases hc with h | h | h | h <;> subst h
    · decide
    · decide
    · exact hvsleep
    · decide
  constructor
  · rw [c4_batching_flush_order.1 _ hval]
    simp only [List.filterMap_cons, List.filterMap_nil]
    rw [show execCommand (("SLEEP".data), [("10".data)]) =
        .ok (Eff.sleep ((10 : ℚ) / 10 ^ 0)) by
      rw [execCommand, if_neg (by decide), if_neg (by decide), if_neg (by decide),
        if_pos rfl, hsd]
      rfl]
    rw [show execCommand (("PRESS".data), [("A".data)]) = .ok (Eff.press Button.A)
      from by decide]
    rw [show execCommand (("STICK".data),
        [("L".data), ("0x800".data), ("0x800".data)]) =
        .ok (Eff.stick StickId.L_STICK (.intV 2048) (.intV 2048)) from by decide]
    rw [show execCommand (("HOLD".data), [("B".data)]) = .ok (Eff.hold Button.B)
      from by decide]
    rfl
  · rw [c4_batching_flush_order.2.1 _ hval]
    rw [specBatched, specBatchedAux, if_neg (by decide)]
    rw [show batchString (("PRESS".data), [("A".data)]) = .ok ("PRESS A".data)
      from by decide]
    simp only []
    rw [specBatchedAux, if_neg (by decide)]
    rw [show batchString (("STICK".data), [("L".data), ("0x800".data), ("0x800".data)]) =
        .ok ("STICK L 0x800 0x800".data) from by decide]
    simp only []
    rw [specBatchedAux, if_pos (by decide), hsd]
    rw [specBatchedAux, if_neg (by decide)]
    rw [show batchString (("HOLD".data), [("B".data)]) = .ok ("HOLD B".data)
      from by decide]
    simp only []
    rw [specBatchedAux]
    rfl
/-! ## C5: graceful pause at iteration boundaries (`execution/session.py`)

One pass of `MacroRunner._execution_loop`'s while-body: `run_commands` is
invoked with the stop event but — deliberately — *without* the pause
event (`session.py` line 236: "without pause_event for graceful
handling"), so the graceful-pause signal is not consulted anywhere inside
the iteration; `_handle_graceful_pause` samples it once, after
`run_commands` returns, and only then releases the controls and blocks;
the `except` block skips the pause check; finally the 0.1 s
inter-iteration delay runs.  The trace records each observable step. -/

inductive Action where
  | iterStart
  | eff (e : Eff)
  | errorLogged (e : ExecErr)
  | cleanup
  | waitResume
  | interDelay
deriving DecidableEq, Repr

/-- One iteration of the continuous loop, with the stop event never set
during the iteration and `gpRequested` the value of the graceful-pause
request as sampled at the boundary check (clear-event = requested). -/
def sessionIteration (cmds : List SimpleCmd) (gpRequested : Bool) : List Action :=
  let r := seqRun (fun _ => false) cmds
  [Action.iterStart] ++ r.1.map Action.eff ++
    (match r.2 with
     | .failed e => [Action.errorLogged e]
     | _ => if gpRequested then [Action.cleanup, Action.waitResume] else []) ++
    [Action.interDelay]

/-- A completed run issues exactly one effect per command. -/
theorem seqRunAux_completed_length : ∀ (cmds : List SimpleCmd) (i : Nat)
    (effs : List Eff), seqRunAux (fun _ => false) i cmds = (effs, .completed) →
    effs.length = cmds.length := by
  intro cmds
  induction cmds with
  | nil =>
    intro i effs h
    rw [seqRunAux] at h
    cases h
    rfl
  | cons c tl ih =>
    intro i effs h
    rw [seqRunAux, if_neg (by simp)] at h
    cases he : execCommand c with
    | error e => rw [he] at h; cases h
    | ok eff =>
      simp only [he] at h
      cases hr : seqRunAux (fun _ => false) (i + 1) tl with
      | mk effs2 out =>
        rw [hr] at h
        cases h
        simp [ih (i + 1) effs2 hr]

/-- C5.  A graceful pause request never truncates an in-flight iteration:
whatever the value of the graceful-pause signal, when the iteration's
commands execute successfully the iteration trace is exactly the start
marker, one effect per command in command order, then — only at the
iteration boundary, and only when the pause was requested — the cleanup
(release all buttons, center sticks) and the blocking wait for resume,
then the inter-iteration delay.  Cleanup never occurs between two command
effects of one iteration. -/
theorem c5_graceful_pause_boundary :
    ∀ (cmds : List SimpleCmd) (effs : List Eff) (gpRequested : Bool),
    seqRun (fun _ => false) cmds = (effs, .completed) →
    sessionIteration cmds gpRequested =
      [Action.iterStart] ++ effs.map Action.eff ++
        (if gpRequested then [Action.cleanup, Action.waitResume] else []) ++
        [Action.interDelay] ∧
    effs.length = cmds.length := by
  intro cmds effs gpRequested h
  constructor
  · rw [sessionIteration, h]
  · exact seqRunAux_completed_length cmds 0 effs h

/-- Witness for C5: a two-command iteration with a graceful pause
requested mid-iteration still executes both commands before cleanup. -/
theorem c5_graceful_pause_boundary_witness :
    sessionIteration [(("HOLD".data), [("A".data)]), (("RELEASE".data), [("A".data)])]
      true =
      [Action.iterStart] ++
        [Eff.hold Button.A, Eff.release Button.A].map Action.eff ++
        (if true then [Action.cleanup, Action.waitResume] else []) ++
        [Action.interDelay] ∧
    ([Eff.hold Button.A, Eff.release Button.A] : List Eff).length =
      ([(("HOLD".data), [("A".data)]), (("RELEASE".data), [("A".data)])] :
        List SimpleCmd).length :=
  c5_graceful_pause_boundary
    [(("HOLD".data), [("A".data)]), (("RELEASE".data), [("A".data)])]
    [Eff.hold Button.A, Eff.release Button.A] true (by decide)
/-! ## C6: interruptible sleep (`CommandExecutor._interruptible_sleep`)

The sleep loop. The stop event is modelled by the absolute time `stopAt`
(measured from the start of the sleep) at which it becomes set; a check
at elapsed time `e` sees it set iff `stopAt ≤ e`.  The pause event is
modelled as set (its `wait()` returns immediately).  The fuel argument
makes the rational-valued countdown structural; one unit of fuel is
consumed per loop pass, and the top-level fuel is proved sufficient. -/

/-- The loop of `_interruptible_sleep`: while `remaining > 0`, return
early if the stop event is set, else sleep `min 0.1 remaining` and
subtract it.  Returns the list of individual tick durations slept and
whether the sleep was interrupted by the stop event. -/
def sleepTicks (stopAt : ℚ) : Nat → ℚ → ℚ → List ℚ × Bool
  | 0, _, _ => ([], false)
  | fuel + 1, elapsed, remaining =>
    if remaining ≤ 0 then ([], false)
    else if stopAt ≤ elapsed then ([], true)
    else
      let δ := min (1 / 10) remaining
      let r := sleepTicks stopAt fuel (elapsed + δ) (remaining - δ)
      (δ :: r.1, r.2)

/-- `_interruptible_sleep duration` with the stop event set at `stopAt`. -/
def interruptibleSleep (stopAt duration : ℚ) : List ℚ × Bool :=
  sleepTicks stopAt (⌈duration * 10⌉₊ + 1) 0 duration

theorem sleepTicks_tick_bounds (stopAt : ℚ) :
    ∀ (fuel : Nat) (e r : ℚ), ∀ t ∈ (sleepTicks stopAt fuel e r).1,
    0 < t ∧ t ≤ 1 / 10 := by
  intro fuel
  induction fuel with
  | zero => intro e r t ht; simp [sleepTicks] at ht
  | succ f ih =>
    intro e r t ht
    rw [sleepTicks] at ht
    by_cases h0 : r ≤ 0
    · rw [if_pos h0] at ht; simp at ht
    · rw [if_neg h0] at ht
      by_cases hstop : stopAt ≤ e
      · rw [if_pos hstop] at ht; simp at ht
      · rw [if_neg hstop] at ht
        simp only [List.mem_cons] at ht
        rcases ht with ht | ht
        · subst ht
          constructor
          · exact lt_min (by norm_num) (by linarith)
          · exact min_le_left _ _
        · exact ih _ _ t ht

theorem sleepTicks_sum_le (stopAt : ℚ) :
    ∀ (fuel : Nat) (e r : ℚ), 0 ≤ r → (sleepTicks stopAt fuel e r).1.sum ≤ r := by
  intro fuel
  induction fuel with
  | zero => intro e r hr; simp [sleepTicks, hr]
  | succ f ih =>
    intro e r hr
    rw [sleepTicks]
    by_cases h0 : r ≤ 0
    · rw [if_pos h0]; simpa using hr
    · rw [if_neg h0]
      by_cases hstop : stopAt ≤ e
      · rw [if_pos hstop]; simpa using hr
      · rw [if_neg hstop]
        simp only [List.sum_cons]
        have hδ : min (1 / 10 : ℚ) r ≤ r := min_le_right _ _
        have := ih (e + min (1 / 10) r) (r - min (1 / 10) r) (by linarith)
        linarith

theorem sleepTicks_sum_lt_stop (stopAt : ℚ) :
    ∀ (fuel : Nat) (e r : ℚ), e < stopAt + 1 / 10 →
    e + (sleepTicks stopAt fuel e r).1.sum < stopAt + 1 / 10 := by
  intro fuel
  induction fuel with
  | zero => intro e r he; simpa [sleepTicks] using he
  | succ f ih =>
    intro e r he
    rw [sleepTicks]
    by_cases h0 : r ≤ 0
    · rw [if_pos h0]; simpa using he
    · rw [if_neg h0]
      by_cases hstop : stopAt ≤ e
      · rw [if_pos hstop]; simpa using he
      · rw [if_neg hstop]
        simp only [List.sum_cons]
        have hδ : min (1 / 10 : ℚ) r ≤ 1 / 10 := min_le_left _ _
        have hrec := ih (e + min (1 / 10) r) (r - min (1 / 10) r) (by push_neg at hstop; linarith)
        linarith

theorem sleepTicks_stops (stopAt : ℚ) :
    ∀ (fuel : Nat) (e r : ℚ), r * 10 < (fuel : ℚ) →
    stopAt + 1 / 10 ≤ e + r → e < stopAt + 1 / 10 →
    (sleepTicks stopAt fuel e r).2 = true := by
  intro fuel
  induction fuel with
  | zero =>
    intro e r hfuel hmargin hinv
    exfalso
    have : 0 < r := by linarith
    simp only [Nat.cast_zero] at hfuel
    linarith
  | succ f ih =>
    intro e r hfuel hmargin hinv
    have hrpos : 0 < r := by linarith
    rw [sleepTicks, if_neg (by linarith)]
    by_cases hstop : stopAt ≤ e
    · rw [if_pos hstop]
    · rw [if_neg hstop]
      push_neg at hstop
      by_cases hsmall : r ≤ 1 / 10
      · exfalso
        linarith
      · push_neg at hsmall
        have hδ : min (1 / 10 : ℚ) r = 1 / 10 := min_eq_left (le_of_lt hsmall)
        rw [hδ]
        apply ih (e + 1 / 10) (r - 1 / 10)
        · push_cast at hfuel ⊢
          linarith
        · linarith
        · linarith

/-- C6.  Every tick of the interruptible sleep is positive and at most
0.1 s (the stop signal is re-checked before each tick); the total time
slept never exceeds the requested duration; if the stop event is set at
time `stopAt` the sleep returns strictly before `stopAt + 0.1` — at most
one further 100 ms tick — rather than waiting out the remaining duration;
and whenever at least one tick of margin remains it returns reporting the
stop. -/
theorem c6_sleep_stop_within_tick :
    (∀ (stopAt : ℚ) (fuel : Nat) (e r : ℚ),
      ∀ t ∈ (sleepTicks stopAt fuel e r).1, 0 < t ∧ t ≤ 1 / 10) ∧
    (∀ stopAt d : ℚ, 0 ≤ d → (interruptibleSleep stopAt d).1.sum ≤ d) ∧
    (∀ stopAt d : ℚ, 0 ≤ stopAt →
      (interruptibleSleep stopAt d).1.sum < stopAt + 1 / 10) ∧
    (∀ stopAt d : ℚ, 0 ≤ stopAt → stopAt + 1 / 10 ≤ d →
      (interruptibleSleep stopAt d).2 = true) := by
  refine ⟨sleepTicks_tick_bounds, ?_, ?_, ?_⟩
  · intro stopAt d hd
    exact sleepTicks_sum_le stopAt _ 0 d hd
  · intro stopAt d hstop
    have h := sleepTicks_sum_lt_stop stopAt (⌈d * 10⌉₊ + 1) 0 d (by linarith)
    simpa [interruptibleSleep] using h
  · intro stopAt d hstop hmargin
    apply sleepTicks_stops stopAt _ 0 d
    · have h1 : d * 10 ≤ (⌈d * 10⌉₊ : ℚ) := by
        apply Nat.le_ceil
      push_cast
      linarith
    · linarith
    · linarith

/-- Witness for C6 at `duration = 1`, `stopAt = 1/4`. -/
theorem c6_sleep_stop_within_tick_witness :
    (interruptibleSleep (1 / 4) 1).1.sum ≤ 1 ∧
    (interruptibleSleep (1 / 4) 1).1.sum < 1 / 4 + 1 / 10 ∧
    (interruptibleSleep (1 / 4) 1).2 = true := by
  refine ⟨?_, ?_, ?_⟩
  · exact c6_sleep_stop_within_tick.2.1 (1 / 4) 1 (by norm_num)
  · exact c6_sleep_stop_within_tick.2.2.1 (1 / 4) 1 (by norm_num)
  · exact c6_sleep_stop_within_tick.2.2.2 (1 / 4) 1 (by norm_num) (by norm_num)
/-! ## C10: error resilience of the continuous loop
(`execution/session.py` `_execution_loop`, `macros/runner.py` `start`)

The while loop checks the stop event, increments the iteration counter,
runs the commands inside a `try` whose `except Exception` logs and falls
through, then sleeps 0.1 s and loops.  The outcome of `run_commands` at
iteration `n` (which may vary across iterations with adapter state) is
abstracted as an oracle `errs n`; the stop event as sampled at the check
preceding iteration `n` is `stop n`.  Task cancellation is out of the
cooperative model; the fuel bounds the observation window. -/

/-- The record of one loop iteration: its number and the error logged by
its `except` block, if any. -/
structure IterRec where
  num : Nat
  err : Option ExecErr
deriving DecidableEq, Repr

/-- `_execution_loop`'s main while loop, starting at iteration `k`. -/
def execLoop (stop : Nat → Bool) (errs : Nat → Option ExecErr) :
    Nat → Nat → List IterRec
  | 0, _ => []
  | fuel + 1, k =>
    if stop k then []
    else { num := k, err := errs k } :: execLoop stop errs fuel (k + 1)

theorem execLoop_num_independent_of_errs (stop : Nat → Bool)
    (errs errs' : Nat → Option ExecErr) :
    ∀ (fuel k : Nat),
    (execLoop stop errs fuel k).map IterRec.num =
      (execLoop stop errs' fuel k).map IterRec.num := by
  intro fuel
  induction fuel with
  | zero => intro k; rfl
  | succ f ih =>
    intro k
    rw [execLoop, execLoop]
    by_cases h : stop k
    · rw [if_pos h, if_pos h]
    · rw [if_neg h, if_neg h]
      simp [ih (k + 1)]

theorem execLoop_reaches (stop : Nat → Bool) (errs : Nat → Option ExecErr) :
    ∀ (fuel k n : Nat), k ≤ n → n < k + fuel →
    (∀ m, k ≤ m → m ≤ n → stop m = false) →
    ({ num := n, err := errs n } : IterRec) ∈ execLoop stop errs fuel k := by
  intro fuel
  induction fuel with
  | zero => intro k n h1 h2 _; omega
  | succ f ih =>
    intro k n h1 h2 hstop
    rw [execLoop, if_neg (by simp [hstop k le_rfl h1])]
    by_cases hk : n = k
    · subst hk
      exact List.mem_cons_self _ _
    · exact List.mem_cons_of_mem _
        (ih (k + 1) n (by omega) (by omega) (fun m hm1 hm2 => hstop m (by omega) hm2))

theorem execLoop_length (stop : Nat → Bool) (errs : Nat → Option ExecErr) :
    ∀ (fuel k : Nat), (∀ m, k ≤ m → m < k + fuel → stop m = false) →
    (execLoop stop errs fuel k).length = fuel := by
  intro fuel
  induction fuel with
  | zero => intro k _; rfl
  | succ f ih =>
    intro k hstop
    rw [execLoop, if_neg (by simp [hstop k le_rfl (by omega)])]
    simp [ih (k + 1) (fun m hm1 hm2 => hstop m (by omega) (by omega))]

/-- C10.  An execution error inside one iteration never terminates the
continuous loop: which iterations run is entirely independent of the
per-iteration error oracle; every iteration up to the first stop request
runs (and has its error logged in its record rather than propagated); and
as long as the stop signal stays clear the loop keeps iterating for the
whole observation window. -/
theorem c10_loop_survives_errors :
    (∀ (stop : Nat → Bool) (errs errs' : Nat → Option ExecErr) (fuel k : Nat),
      (execLoop stop errs fuel k).map IterRec.num =
        (execLoop stop errs' fuel k).map IterRec.num) ∧
    (∀ (stop : Nat → Bool) (errs : Nat → Option ExecErr) (fuel n : Nat),
      1 ≤ n → n < 1 + fuel → (∀ m, 1 ≤ m → m ≤ n → stop m = false) →
      ({ num := n, err := errs n } : IterRec) ∈ execLoop stop errs fuel 1) ∧
    (∀ (stop : Nat → Bool) (errs : Nat → Option ExecErr) (fuel : Nat),
      (∀ m, 1 ≤ m → m < 1 + fuel → stop m = false) →
      (execLoop stop errs fuel 1).length = fuel) := by
  refine ⟨?_, ?_, ?_⟩
  · intro stop errs errs' fuel k
    exact execLoop_num_independent_of_errs stop errs errs' fuel k
  · intro stop errs fuel n h1 h2 h3
    exact execLoop_reaches stop errs fuel 1 n h1 h2 h3
  · intro stop errs fuel h
    exact execLoop_length stop errs fuel 1 h

/-- Witness for C10: with a stop request first sampled at iteration 4 and
an adapter error at iteration 2, iterations 1..3 all run, the error is
logged in iteration 2's record, and the loop length is exactly 3. -/
theorem c10_loop_survives_errors_witness :
    ({ num := 2,
       err := some (.unknownCommand ("CENTER_STICKS".data)) } : IterRec) ∈
      execLoop (fun m => decide (4 ≤ m))
        (fun n => if n = 2 then some (.unknownCommand ("CENTER_STICKS".data))
                  else none) 10 1 ∧
    (execLoop (fun m => decide (4 ≤ m))
      (fun n => if n = 2 then some (.unknownCommand ("CENTER_STICKS".data))
                else none) 3 1).length = 3 := by
  constructor
  · have h := c10_loop_survives_errors.2.1 (fun m => decide (4 ≤ m))
      (fun n => if n = 2 then some (.unknownCommand ("CENTER_STICKS".data)) else none)
      10 2 (by norm_num) (by norm_num)
      (by intro m h1 h2; simp; omega)
    simpa using h
  · exact c10_loop_survives_errors.2.2 (fun m => decide (4 ≤ m))
      (fun n => if n = 2 then some (.unknownCommand ("CENTER_STICKS".data)) else none)
      3 (by intro m h1 h2; simp; omega)
end Autoshine










